import Mathlib

/-!
Shallow embedding of the greedy channel router in
`src/python/prototyping/rf83_bvh.py` (class `Router`), together with
theorems settling the specification claims about it.

Coordinates follow the source: a grid point is `(column, track)`; tracks
run `1 .. channel_width`, the bottom pin row is track `0` and the top pin
row is track `channel_width + 1`.  Python `set`s of tracks become
duplicate-free `List ℕ` values manipulated only through order-insensitive
operations (`min`, `max`, membership, subset) except where CPython
iteration order is observable, which is ascending for the small integer
ids used here; the `networkx` graph becomes an insertion-ordered list of
edges, each carrying its `net` attribute; the Python `dict` of per-net
track sets becomes the pair of a key list (`nets`) and a total function
`Y`.  Python exceptions that the routing loop can actually raise are
modelled with explicit error values.
-/

namespace RF83

/-- A grid point `(column, track)`. -/
abbrev Pt := ℕ × ℕ

/-- One `networkx` edge of the routing graph: its two endpoints and the
value of its `net` attribute. -/
structure Edge where
  a : Pt
  b : Pt
  net : ℕ
deriving DecidableEq, Repr

/-- The side argument of `next_pin` / `widen_channel` (`'T'` or `'B'`). -/
inductive Side where
  | T
  | B
deriving DecidableEq, Repr

/-- Result of `classify_net`. -/
inductive NetClass where
  | rising
  | falling
  | steady
deriving DecidableEq, Repr

/-- The Python exceptions the routing machinery can raise: `TypeError`
from `set.union()` with no arguments (in `occupied_tracks` when the
router has no nets at all) and `ValueError` (raised by `route_and_retry`
itself when the retry budget is exhausted). -/
inductive RErr where
  | typeError
  | valueError
deriving DecidableEq, Repr

/-- The mutable state of a `Router` instance. -/
structure RState where
  T : List ℕ
  B : List ℕ
  channelLength : ℕ
  initialChannelWidth : ℕ
  channelWidth : ℕ
  currentColumn : ℕ
  minimumJogLength : ℕ
  steadyNetConstant : ℕ
  nets : List ℕ
  Y : ℕ → List ℕ
  G : List Edge

/-! ## Python set operations on duplicate-free lists -/

/-- Membership-preserving ordered insertion (used to keep model sets
duplicate-free and ascending). -/
def insertS (x : ℕ) : List ℕ → List ℕ
  | [] => [x]
  | y :: ys =>
    if x < y then x :: y :: ys
    else if x = y then y :: ys
    else y :: insertS x ys

/-- Set union of two list-sets. -/
def unionS (s t : List ℕ) : List ℕ :=
  s.foldr insertS t

/-- `min(s)` over a nonempty Python set, `none` for the empty one. -/
def minS (s : List ℕ) : Option ℕ :=
  s.foldr (fun a r => match r with | none => some a | some b => some (min a b)) none

/-- `max(s)` over a nonempty Python set, `none` for the empty one. -/
def maxS (s : List ℕ) : Option ℕ :=
  s.foldr (fun a r => match r with | none => some a | some b => some (max a b)) none

/-- Ascending sort of a list-set (Python `sorted`). -/
def insertAsc (x : ℕ) : List ℕ → List ℕ
  | [] => [x]
  | y :: ys => if x ≤ y then x :: y :: ys else y :: insertAsc x ys

/-- Ascending insertion sort (Python `sorted` on a set of naturals). -/
def sortAsc (l : List ℕ) : List ℕ :=
  l.foldr insertAsc []

/-- Deduplicate and sort: the canonical list of a Python set of small
naturals, in CPython's ascending iteration order. -/
def setOf (l : List ℕ) : List ℕ :=
  l.foldr insertS []

/-! ## Generic list helpers (itertools and sorting, in CPython order) -/

/-- Stable insertion by a natural-number key, descending: an element goes
before the first element with a strictly smaller key, matching Python
`list.sort(key=..., reverse=True)` stability. -/
def insertDescBy {α : Type} (key : α → ℕ) (x : α) : List α → List α
  | [] => [x]
  | y :: ys => if key y < key x then x :: y :: ys else y :: insertDescBy key x ys

/-- Stable descending sort by key (Python `sort(key=..., reverse=True)`). -/
def sortDescBy {α : Type} (key : α → ℕ) (l : List α) : List α :=
  l.foldr (insertDescBy key) []

/-- Stable insertion by key, ascending (Python `sorted(key=...)`). -/
def insertAscBy {α : Type} (key : α → ℕ) (x : α) : List α → List α
  | [] => [x]
  | y :: ys => if key x < key y then x :: y :: ys else y :: insertAscBy key x ys

/-- Stable ascending sort by key (Python `sorted(pairs, key=lambda x: x[0])`). -/
def sortAscBy {α : Type} (key : α → ℕ) (l : List α) : List α :=
  l.foldr (insertAscBy key) []

/-- `itertools.combinations(l, n)` in its enumeration order. -/
def combos {α : Type} : ℕ → List α → List (List α)
  | 0, _ => [[]]
  | _ + 1, [] => []
  | n + 1, x :: xs => (combos n xs).map (x :: ·) ++ combos (n + 1) xs

/-- `Router.powerset(l, exclude_empty=True)`: all combinations of sizes
`1 .. len l`, in enumeration order. -/
def powersetNE {α : Type} (l : List α) : List (List α) :=
  (List.range l.length).flatMap (fun n => combos (n + 1) l)

/-- `itertools.product(*ls)` in its enumeration order (last factor varies
fastest). -/
def listProd {α : Type} : List (List α) → List (List α)
  | [] => [[]]
  | l :: ls => l.flatMap (fun x => (listProd ls).map (x :: ·))

/-- First position where two lists of integers differ, and whether the
left entry is the larger one there (the `zip` loop of `compare_scores`). -/
def zipFirstDiff : List ℤ → List ℤ → Option Bool
  | a :: as, b :: bs => if a ≠ b then some (decide (b < a)) else zipFirstDiff as bs
  | _, _ => none

/-- `Router.overlaps`: sort the `(start, stop)` pairs by start and report
whether some segment starts no later than its predecessor stops. -/
def overlapsB (pairs : List (ℕ × ℕ)) : Bool :=
  if pairs.length == 1 then false
  else
    let s := sortAscBy Prod.fst pairs
    (s.zip s.tail).any fun pq => pq.2.1 ≤ pq.1.2

/-- `Router.contiguous`: sort the `(start, stop)` pairs by start and check
that each stop equals the next start. -/
def contiguousB (pairs : List (ℕ × ℕ)) : Bool :=
  if pairs.length == 1 then true
  else
    let s := sortAscBy Prod.fst pairs
    (s.zip s.tail).all fun pq => pq.1.2 == pq.2.1

/-! ## Graph helpers -/

/-- Unordered endpoint comparison for `networkx` edges. -/
def sameEnds (e : Edge) (u v : Pt) : Bool :=
  (e.a == u && e.b == v) || (e.a == v && e.b == u)

/-- `G.add_edge(u, v, net=net)`: overwrite the attribute if the edge is
already present, otherwise append it. -/
def addEdgeL (G : List Edge) (u v : Pt) (net : ℕ) : List Edge :=
  if G.any (sameEnds · u v) then
    G.map fun e => if sameEnds e u v then { e with net := net } else e
  else
    G ++ [⟨u, v, net⟩]

/-- `G.has_node(p)`: a node exists iff some edge touches it. -/
def hasNodeB (G : List Edge) (p : Pt) : Bool :=
  G.any fun e => e.a == p || e.b == p

/-! ## Channel-state getters -/

/-- `Router.all_tracks`: tracks `1 .. channel_width`. -/
def allTracks (st : RState) : List ℕ :=
  List.range' 1 st.channelWidth

/-- `Router.occupied_tracks` as a total function (the union of all nets'
track sets; empty when there are no nets). -/
def occupiedD (st : RState) : List ℕ :=
  st.nets.foldr (fun n acc => unionS (st.Y n) acc) []

/-- `Router.occupied_tracks` with its crash: `set.union(*[])` raises
`TypeError` when the router has no nets at all. -/
def occupiedOpt (st : RState) : Option (List ℕ) :=
  if st.nets = [] then none else some (occupiedD st)

/-- `Router.free_tracks`. -/
def freeD (st : RState) : List ℕ :=
  (allTracks st).filter (fun t => ¬ t ∈ occupiedD st)

/-- `Router.split_nets`: sorted nets occupying more than one track. -/
def splitNetsList (st : RState) : List ℕ :=
  st.nets.filter fun n => 1 < (st.Y n).length

/-- `Router.vertical_wiring`: `(y1, y2, net)` for every edge of the graph
lying wholly in the current column. -/
def verticalWiring (st : RState) : List (ℕ × ℕ × ℕ) :=
  st.G.filterMap fun e =>
    if e.a.1 = e.b.1 ∧ e.a.1 = st.currentColumn then some (e.a.2, e.b.2, e.net)
    else none

/-- Does some vertical wire of the current column span track `i`? -/
def vertBlocked (st : RState) (i : ℕ) : Bool :=
  (verticalWiring st).any fun v => min v.1 v.2.1 ≤ i && i ≤ max v.1 v.2.1

/-- `Router.pins`: the nets of the still-unrouted pins of the current
column (`none` when absent or already attached). -/
def pinsProp (st : RState) : Option ℕ × Option ℕ :=
  let x := st.currentColumn
  if st.channelLength ≤ x then (none, none)
  else
    let yt := st.channelWidth + 1
    let topNet := st.T.getD x 0
    let botNet := st.B.getD x 0
    let top := if 0 < topNet ∧ ¬ hasNodeB st.G (x, yt) then some topNet else none
    let bot := if 0 < botNet ∧ ¬ hasNodeB st.G (x, 0) then some botNet else none
    (top, bot)

end RF83

namespace RF83

/-! ## Queries -/

/-- The column indexes strictly after `cc` at which `l` carries net `n`
(the per-net list comprehensions of `next_pin`). -/
def pinColsNet (l : List ℕ) (cc n : ℕ) : List ℕ :=
  l.enum.filterMap fun p => if p.2 = n ∧ cc < p.1 then some p.1 else none

/-- All column indexes of `l` strictly after `cc`: the `net=None` branch
of `next_pin` drops the net test entirely. -/
def colsAfter (l : List ℕ) (cc : ℕ) : List ℕ :=
  l.enum.filterMap fun p => if cc < p.1 then some p.1 else none

/-- `Router.next_pin(net, side)`.  `net = 0` models both Python `None`
and net id 0, which behave identically under the source's truthiness
test: the per-net filter is skipped and every later column index counts. -/
def nextPin (st : RState) (net : ℕ) (side : Option Side) : Option ℕ :=
  let top :=
    if net ≠ 0 then pinColsNet st.T st.currentColumn net
    else colsAfter st.T st.currentColumn
  let bottom :=
    if net ≠ 0 then pinColsNet st.B st.currentColumn net
    else colsAfter st.B st.currentColumn
  match side with
  | some .T => minS top
  | some .B => minS bottom
  | none => minS (top ++ bottom)

/-- `Router.classify_net`. -/
def classifyNet (st : RState) (net : ℕ) : NetClass :=
  match nextPin st net (some .T), nextPin st net (some .B) with
  | some _, none => .rising
  | none, some _ => .falling
  | none, none => .steady
  | some t, some b =>
    if t + st.steadyNetConstant ≤ b then .rising
    else if b + st.steadyNetConstant ≤ t then .falling
    else .steady

/-- `Router.compute_density`. -/
def computeDensity (T B : List ℕ) : ℕ :=
  ((List.range T.length).map fun alpha =>
    let left := setOf (((T.take alpha) ++ (B.take alpha)).filter (· ≠ 0))
    let right := setOf (((T.drop alpha) ++ (B.drop alpha)).filter (· ≠ 0))
    (left.filter (· ∈ right)).length).foldr max 0

/-- `Router.finished`, with Python's evaluation order: `next_pin()` is
checked first and short-circuits, so `occupied_tracks` (which raises
`TypeError` when the router has no nets) is only reached afterwards. -/
def finishedE (st : RState) : Except RErr Bool :=
  if (nextPin st 0 none).isSome then .ok false
  else
    match occupiedOpt st with
    | none => .error .typeError
    | some occ => .ok (occ.length = 0)

/-! ## Step 1: pin connection -/

/-- Point update of the per-net track map. -/
def updY (Y : ℕ → List ℕ) (n : ℕ) (s : List ℕ) : ℕ → List ℕ :=
  fun m => if m = n then s else Y m

/-- `Router.add_vertical_wire`. -/
def addVerticalWire (st : RState) (net fromTrack toTrack : ℕ) : RState :=
  let y1 := min fromTrack toTrack
  let y2 := max fromTrack toTrack
  { st with G := addEdgeL st.G (st.currentColumn, y1) (st.currentColumn, y2) net }

/-- The candidate track of a bottom pin: `min(free_tracks ∪ Y[net])`. -/
def bottomCandidate (st : RState) (net : ℕ) : Option ℕ :=
  minS (unionS (freeD st) (st.Y net))

/-- The candidate track of a top pin: `max(free_tracks ∪ Y[net])`. -/
def topCandidate (st : RState) (net : ℕ) : Option ℕ :=
  maxS (unionS (freeD st) (st.Y net))

/-- `Router.connect_pins`. -/
def connectPins (st : RState) : RState :=
  let x := st.currentColumn
  let topNet := st.T.getD x 0
  let bottomNet := st.B.getD x 0
  if topNet ≠ 0 ∧ bottomNet ≠ 0 ∧ topNet = bottomNet ∧
      (occupiedD st).length = st.channelWidth ∧ st.Y topNet = [] ∧
      nextPin st topNet none = none then
    addVerticalWire st topNet 0 (st.channelWidth + 1)
  else
    let bottomTrack := if bottomNet ≠ 0 then bottomCandidate st bottomNet else none
    let topTrack := if topNet ≠ 0 then topCandidate st topNet else none
    let addBottom := fun (s : RState) (bt : ℕ) =>
      let s2 := { s with Y := updY s.Y bottomNet (insertS bt (s.Y bottomNet)) }
      addVerticalWire s2 bottomNet 0 bt
    let addTop := fun (s : RState) (tt : ℕ) =>
      let s2 := { s with Y := updY s.Y topNet (insertS tt (s.Y topNet)) }
      addVerticalWire s2 topNet tt (s.channelWidth + 1)
    match bottomTrack, topTrack with
    | some bt, some tt =>
      if topNet = bottomNet then addTop (addBottom st bt) tt
      else if bt < tt then addTop (addBottom st bt) tt
      else if bt < st.channelWidth + 1 - tt then addBottom st bt
      else addTop st tt
    | some bt, none => addBottom st bt
    | none, some tt => addTop st tt
    | none, none => st

/-! ## Step 2: collapsing split nets -/

/-- The adjacent-track candidate jogs of a net:
`zip(track_list, track_list[1:])` over its sorted tracks. -/
def adjacentPairs (st : RState) (net : ℕ) : List (ℕ × ℕ) :=
  let tl := sortAsc (st.Y net)
  tl.zip tl.tail

/-- `Router.validate_jog_pattern`: jogs of different groups must have
disjoint vertical spans. -/
def validateJogPattern (pattern : List (List (ℕ × ℕ))) : Bool :=
  (combos 2 pattern).all fun pr =>
    match pr with
    | [g1, g2] => g1.all fun j1 => g2.all fun j2 => j1.2 < j2.1 || j2.2 < j1.1
    | _ => true

/-- `Router.generate_jog_patterns`. -/
def generateJogPatterns (st : RState) : List (List (List (ℕ × ℕ))) :=
  let jogs := (splitNetsList st).map (adjacentPairs st)
  (listProd (jogs.map powersetNE)).filter validateJogPattern

/-- A score triple `(n_freed, distance_ranking, jog_length_sum)`. -/
abbrev Score := ℕ × List ℤ × ℤ

/-- Ordered insertion for integers. -/
def insertAscZ (x : ℤ) : List ℤ → List ℤ
  | [] => [x]
  | y :: ys => if x ≤ y then x :: y :: ys else y :: insertAscZ x ys

/-- Ascending sort of a list of integers (Python `sorted`). -/
def sortAscZ (l : List ℤ) : List ℤ :=
  l.foldr insertAscZ []

/-- The endpoints mentioned by a group of jogs (`chain(*group)`). -/
def groupTracks (g : List (ℕ × ℕ)) : List ℕ :=
  g.flatMap fun p => [p.1, p.2]

/-- Does some almost-finished net (no upcoming pin, still split) have its
whole track set covered by the endpoints of this group of jogs?  This is
the `for net in almost_finished_nets` search inside `evaluate_jogs`,
whose `break` makes it an existence test. -/
def groupClosesNet (st : RState) (order : List ℕ) (g : List (ℕ × ℕ)) : Bool :=
  (order.filter fun n => nextPin st n none = none ∧ 1 < (st.Y n).length).any
    fun n => (st.Y n).all (· ∈ groupTracks g)

/-- `Router.evaluate_jogs`, with the enumeration order of
`self.Y.items()` (used to build `almost_finished_nets`) made an explicit
parameter so that its irrelevance can be stated and proved. -/
def evaluateJogsWith (order : List ℕ) (st : RState) (pattern : List (List (ℕ × ℕ))) :
    Score :=
  let allJogs := pattern.flatten
  let base := allJogs.length
  let bonus := (pattern.filter fun g =>
    g ≠ [] ∧ contiguousB g ∧ groupClosesNet st order g).length
  let allTracksJ := setOf (groupTracks allJogs)
  let netDistances := (splitNetsList st).filterMap fun n =>
    let dangling := (st.Y n).filter (fun t => ¬ t ∈ allTracksJ)
    match minS dangling, maxS dangling with
    | some lo, some hi =>
      some (Min.min ((lo : ℤ) - 1) ((st.channelWidth : ℤ) - (hi : ℤ)))
    | _, _ => none
  let jogLengthSum := (allJogs.map fun p => (p.2 : ℤ) - (p.1 : ℤ)).sum
  (base + bonus, sortAscZ netDistances, jogLengthSum)

/-- `Router.evaluate_jogs` with the dictionary's own key order. -/
def evaluateJogs (st : RState) (pattern : List (List (ℕ × ℕ))) : Score :=
  evaluateJogsWith st.nets st pattern

/-- `Router.compare_scores`: `true` iff the first score is judged
strictly better. -/
def compareScores (s1 s2 : Score) : Bool :=
  if s1.1 ≠ s2.1 then decide (s2.1 < s1.1)
  else if s1.2.1 ≠ s2.2.1 then
    match zipFirstDiff s1.2.1 s2.2.1 with
    | some b => b
    | none => decide (s2.2.2 < s1.2.2)
  else decide (s2.2.2 < s1.2.2)

/-- `Router.collapse_split_nets`. -/
def collapseSplitNets (st : RState) : RState :=
  if (splitNetsList st).length = 0 then st
  else
    let patterns := generateJogPatterns st
    if patterns.length = 0 then st
    else
      let existingVerticals := st.G.filterMap fun e =>
        if e.a.1 = e.b.1 ∧ e.a.1 = st.currentColumn then
          some (min e.a.2 e.b.2, max e.a.2 e.b.2, e.net)
        else none
      let sn := splitNetsList st
      let patternOK := fun (p : List (List (ℕ × ℕ))) =>
        p.enum.all fun ig =>
          let net := sn.getD ig.1 0
          ig.2.all fun j =>
            let jp := (min j.1 j.2, max j.1 j.2)
            existingVerticals.all fun v =>
              v.2.2 == net || ! overlapsB [jp, (v.1, v.2.1)]
      let filtered := patterns.filter patternOK
      if filtered.length = 0 then st
      else
        let worst : Score := (0, ([], (st.channelWidth : ℤ)))
        let best := filtered.foldl
          (fun (acc : Score × Option (List (List (ℕ × ℕ)))) p =>
            let sc := evaluateJogs st p
            if compareScores sc acc.1 then (sc, some p) else acc)
          (worst, none)
        match best.2 with
        | none => st
        | some p =>
          (sn.zip p).foldl
            (fun s ng =>
              ng.2.foldl
                (fun s2 j =>
                  let s3 := addVerticalWire s2 ng.1 j.1 j.2
                  { s3 with Y := updY s3.Y ng.1 ((s3.Y ng.1).erase j.1) })
                s)
            st

/-! ## Steps 3 and 4: scouting and jogs -/

/-- Distance between two naturals. -/
def natDist (a b : ℕ) : ℕ :=
  max a b - min a b

/-- The scanning loop of `Router.scout`: walk the cells toward the goal,
breaking at the first cell spanned by a vertical wire of the current
column, skipping (without landing on) cells horizontally occupied by a
different net, and recording the last reachable cell in the marker. -/
def scoutScan (st : RState) (net : ℕ) : List ℕ → ℕ → ℕ
  | [], m => m
  | i :: rest, m =>
    if vertBlocked st i then m
    else if i ∈ occupiedD st ∧ ¬ i ∈ st.Y net then scoutScan st net rest m
    else scoutScan st net rest i

/-- `Router.scout`. -/
def scout (st : RState) (net track goal : ℕ) : ℕ :=
  if track < goal then scoutScan st net (List.range' (track + 1) (goal - track)) track
  else if goal < track then
    scoutScan st net (List.range' goal (track - goal)).reverse track
  else track

/-- `Router.jog`: scout again toward the goal and commit the move when
the destination differs from the starting track. -/
def jogOp (st : RState) (net track goal : ℕ) : RState :=
  let destination := scout st net track goal
  if destination ≠ track then
    let s := { st with Y := updY st.Y net (insertS destination ((st.Y net).erase track)) }
    addVerticalWire s net track destination
  else st

/-- `Router.compress_split_net`: scout the lowest track upward and the
highest track downward first, then commit the high move and then the low
move, each only when its scouted distance reaches `minimum_jog_length`. -/
def compressSplitNet (st : RState) (net : ℕ) : RState :=
  let tracks := sortAsc (st.Y net)
  match tracks, tracks.reverse with
  | t0 :: t1 :: _, hLast :: hSnd :: _ =>
    let lowMarker := scout st net t0 t1
    let highMarker := scout st net hLast hSnd
    let st1 :=
      if st.minimumJogLength ≤ natDist highMarker hLast then jogOp st net hLast highMarker
      else st
    if st.minimumJogLength ≤ natDist lowMarker t0 then jogOp st1 net t0 lowMarker
    else st1
  | _, _ => st

/-- `Router.push_unsplit_nets`. -/
def pushUnsplitNets (st : RState) : RState :=
  let x := st.currentColumn
  let upcoming := setOf (st.T.drop x ++ st.B.drop x)
  let netsToJog := upcoming.filter fun n => n ≠ 0 ∧ (st.Y n).length = 1
  let trackDistances := netsToJog.filterMap fun n =>
    match st.Y n with
    | [track] =>
      match (match classifyNet st n with
             | .rising => some st.channelWidth
             | .falling => some 1
             | .steady => none) with
      | none => none
      | some goal =>
        let destination := scout st n track goal
        let dist := natDist track destination
        if st.minimumJogLength ≤ dist then some (dist, n, track, goal) else none
    | _ => none
  (sortDescBy (fun q => q.1) trackDistances).foldl
    (fun s q => jogOp s q.2.1 q.2.2.1 q.2.2.2) st

/-! ## Step 5: channel widening -/

/-- Python `round(w / 2)` (round-half-to-even). -/
def pyRoundHalf (w : ℕ) : ℕ :=
  if w % 2 = 0 then w / 2
  else if (w / 2) % 2 = 0 then w / 2 else w / 2 + 1

/-- The insertion position chosen by `Router.widen_channel`. -/
def newTrackPos (st : RState) (fromSide : Option Side) : ℕ :=
  let midTrack := pyRoundHalf st.channelWidth + 1
  let vw := verticalWiring st
  let minStart := if vw.length = 0 then 1 else (minS (vw.map (·.1))).getD 1
  let maxEnd :=
    if vw.length = 0 then st.channelWidth + 1 else (maxS (vw.map (·.2.1))).getD 0
  match fromSide with
  | some .B => min minStart midTrack
  | some .T => max (maxEnd + 1) midTrack
  | none => midTrack

/-- The relabeling applied to track coordinates when a new track is
inserted at position `t`: coordinates at or above `t` move up by one. -/
def shiftTrack (t y : ℕ) : ℕ :=
  if t ≤ y then y + 1 else y

/-- `Router.widen_channel`. -/
def widenChannel (st : RState) (fromSide : Option Side) : RState :=
  let nt := newTrackPos st fromSide
  { st with
    channelWidth := st.channelWidth + 1
    Y := fun n => (st.Y n).map (shiftTrack nt)
    G := st.G.map fun e =>
      ⟨(e.a.1, shiftTrack nt e.a.2), (e.b.1, shiftTrack nt e.b.2), e.net⟩ }

/-! ## Step 6: extension, the column loop, and the retry driver -/

/-- `Router.extend_nets`. -/
def extendNets (st : RState) : RState :=
  let st1 := st.nets.foldl
    (fun s n =>
      if (s.Y n).length = 1 ∧ nextPin s n none = none then
        { s with Y := updY s.Y n [] }
      else
        (s.Y n).foldl
          (fun s2 track =>
            { s2 with
              G := addEdgeL s2.G (s2.currentColumn, track)
                     (s2.currentColumn + 1, track) n })
          s)
    st
  { st1 with channelLength := max st1.channelLength (st1.currentColumn + 1) }

/-- One iteration of the `Router.route` column loop (steps 1-6 in source
order; the pair of unresolved pins is read once, before any widening). -/
def columnBody (st : RState) : RState :=
  let s1 := if st.currentColumn < st.channelLength then connectPins st else st
  let s2 := collapseSplitNets s1
  let s3 := (splitNetsList s2).foldl compressSplitNet s2
  let s4 := pushUnsplitNets s3
  let pins := pinsProp s4
  let s5 := if pins.1.isSome then connectPins (widenChannel s4 (some .T)) else s4
  let s6 := if pins.2.isSome then connectPins (widenChannel s5 (some .B)) else s5
  let s7 := extendNets s6
  { s7 with currentColumn := s7.currentColumn + 1 }

/-- Result of running the column loop. -/
inductive LoopRes where
  | done (st : RState)
  | err (e : RErr) (st : RState)
  | outOfFuel (st : RState)

/-- The `while not self.finished` loop of `Router.route`, with explicit
fuel.  `maxLen2` is twice the `max_length = channel_length * 1.5` cutoff
computed at entry, so the failsafe `channel_length >= max_length` becomes
`maxLen2 ≤ 2 * channel_length`. -/
def routeLoop (maxLen2 : ℕ) : ℕ → RState → LoopRes
  | 0, st => .outOfFuel st
  | fuel + 1, st =>
    match finishedE st with
    | .error e => .err e st
    | .ok true => .done st
    | .ok false =>
      let st2 := columnBody st
      if maxLen2 ≤ 2 * st2.channelLength then .done st2
      else routeLoop maxLen2 fuel st2

/-- `Router.route` up to the end of the column loop (the post-loop
orientation/simplification pass only reshapes the returned graph and is
outside every claim considered here).  The fuel is large enough that the
out-of-fuel case is unreachable; see the termination theorem. -/
def route (st : RState) : LoopRes :=
  routeLoop (3 * st.channelLength) (2 * st.channelLength + 1) st

/-- `Router.__init__`. -/
def mkRouter (T B : List ℕ) (initialWidth : Option ℕ) (mjl snc : ℕ) : RState :=
  let icw := match initialWidth with
    | none => computeDensity T B
    | some w => w
  { T := T, B := B, channelLength := T.length, initialChannelWidth := icw,
    channelWidth := icw, currentColumn := 0, minimumJogLength := mjl,
    steadyNetConstant := snc,
    nets := (setOf (T ++ B)).filter (· ≠ 0),
    Y := fun _ => [], G := [] }

/-- `Router.reset`: the first three parameters are applied under Python
truthiness (`0` or `None` leaves the stored value), the last two under an
`is not None` test.  Note which fields are re-initialised: the channel
width is not among them. -/
def resetR (st : RState) (icw mjl snc : Option ℕ)
    (Tn Bn : Option (List ℕ)) : RState :=
  let s1 := match icw with
    | some w => if w ≠ 0 then { st with initialChannelWidth := w } else st
    | none => st
  let s2 := match mjl with
    | some v => if v ≠ 0 then { s1 with minimumJogLength := v } else s1
    | none => s1
  let s3 := match snc with
    | some v => if v ≠ 0 then { s2 with steadyNetConstant := v } else s2
    | none => s2
  let s4 := match Tn with
    | some t => { s3 with T := t }
    | none => s3
  let s5 := match Bn with
    | some b => { s4 with B := b }
    | none => s4
  { s5 with
    channelLength := s5.T.length
    currentColumn := 0
    nets := (setOf (s5.T ++ s5.B)).filter (· ≠ 0)
    Y := fun _ => []
    G := [] }

/-- What `route_and_retry` prints, as structured data. -/
inductive LogMsg where
  | failedToRoute (T B : List ℕ)
  | cfgInitialWidth (w : ℕ)
  | cfgMinJog (j : ℕ)
  | caughtValueError
  | retrying (triesLeft : ℕ)
deriving DecidableEq, Repr

/-- `Router.route_and_retry`: at a spent budget, print the pin sequences
and the attempted configuration and raise `ValueError`; otherwise route,
catching only `ValueError` to reset (with the initial width bumped by
one) and recurse.  The out-of-fuel loop result is unreachable (see the
termination theorem) and is mapped like a normal return. -/
def routeAndRetry : RState → ℕ → List LogMsg × Except RErr RState
  | st, 0 =>
    ([.failedToRoute st.T st.B, .cfgInitialWidth st.initialChannelWidth,
      .cfgMinJog st.minimumJogLength], .error .valueError)
  | st, n + 1 =>
    match route st with
    | .done s => ([], .ok s)
    | .outOfFuel s => ([], .ok s)
    | .err .typeError _ => ([], .error .typeError)
    | .err .valueError _ =>
      let next := routeAndRetry
        (resetR st (some (st.initialChannelWidth + 1)) none none none none) n
      (.caughtValueError :: .retrying (n + 1) :: next.1, next.2)

/-- `route_and_retry` with its default budget of 10 tries. -/
def routeAndRetryDefault (st : RState) : List LogMsg × Except RErr RState :=
  routeAndRetry st 10

end RF83

namespace RF83

/-! ## Unit expansion of the wire graph and cross-net disjointness -/

/-- The grid points covered by an axis-aligned wire segment, unit step by
unit step. -/
def unitNodesOfEdge (e : Edge) : List Pt :=
  if e.a.1 = e.b.1 then
    let lo := min e.a.2 e.b.2
    let hi := max e.a.2 e.b.2
    (List.range' lo (hi - lo + 1)).map fun y => (e.a.1, y)
  else if e.a.2 = e.b.2 then
    let lo := min e.a.1 e.b.1
    let hi := max e.a.1 e.b.1
    (List.range' lo (hi - lo + 1)).map fun x => (x, e.a.2)
  else [e.a, e.b]

/-- The unit-length sub-segments of an axis-aligned wire segment, each as
an ordered pair of adjacent grid points. -/
def unitEdgesOfEdge (e : Edge) : List (Pt × Pt) :=
  if e.a.1 = e.b.1 then
    let lo := min e.a.2 e.b.2
    let hi := max e.a.2 e.b.2
    (List.range' lo (hi - lo)).map fun y => ((e.a.1, y), (e.a.1, y + 1))
  else if e.a.2 = e.b.2 then
    let lo := min e.a.1 e.b.1
    let hi := max e.a.1 e.b.1
    (List.range' lo (hi - lo)).map fun x => ((x, e.a.2), (x + 1, e.a.2))
  else []

/-- All grid points of one net's accumulated wire graph. -/
def netUnitNodes (G : List Edge) (n : ℕ) : List Pt :=
  (G.filter (fun e => e.net == n)).flatMap unitNodesOfEdge

/-- All unit segments of one net's accumulated wire graph. -/
def netUnitEdges (G : List Edge) (n : ℕ) : List (Pt × Pt) :=
  (G.filter (fun e => e.net == n)).flatMap unitEdgesOfEdge

/-- The nets mentioned by a graph, ascending. -/
def graphNets (G : List Edge) : List ℕ :=
  setOf (G.map (·.net))

/-- No element in common between two lists. -/
def disjointL {α : Type} [BEq α] (l1 l2 : List α) : Bool :=
  l1.all fun x => ! l2.contains x

/-- Do the wire graphs of every two distinct nets share no unit segment? -/
def netsEdgeDisjointB (G : List Edge) : Bool :=
  (combos 2 (graphNets G)).all fun pr =>
    match pr with
    | [n1, n2] => disjointL (netUnitEdges G n1) (netUnitEdges G n2)
    | _ => true

/-- Do the wire graphs of every two distinct nets share no grid node? -/
def netsNodeDisjointB (G : List Edge) : Bool :=
  (combos 2 (graphNets G)).all fun pr =>
    match pr with
    | [n1, n2] => disjointL (netUnitNodes G n1) (netUnitNodes G n2)
    | _ => true

/-! ## Phase-by-phase trace of the column loop -/

/-- The six intermediate states of one column iteration, in source order:
after pin connection, collapsing, compression, pushing, the two optional
widen-and-reconnect steps, and extension. -/
def phaseStates (st : RState) : List RState :=
  let s1 := if st.currentColumn < st.channelLength then connectPins st else st
  let s2 := collapseSplitNets s1
  let s3 := (splitNetsList s2).foldl compressSplitNet s2
  let s4 := pushUnsplitNets s3
  let pins := pinsProp s4
  let s5 := if pins.1.isSome then connectPins (widenChannel s4 (some .T)) else s4
  let s6 := if pins.2.isSome then connectPins (widenChannel s5 (some .B)) else s5
  let s7 := extendNets s6
  [s1, s2, s3, s4, s5, s6, s7]

/-- The concatenated phase states of every executed column iteration. -/
def routeTrace (maxLen2 : ℕ) : ℕ → RState → List RState
  | 0, _ => []
  | fuel + 1, st =>
    match finishedE st with
    | .error _ => []
    | .ok true => []
    | .ok false =>
      let ph := phaseStates st
      let st2 := columnBody st
      if maxLen2 ≤ 2 * st2.channelLength then ph
      else ph ++ routeTrace maxLen2 fuel st2

/-- The initial state followed by every phase state of the whole run. -/
def fullTrace (st : RState) : List RState :=
  st :: routeTrace (3 * st.channelLength) (2 * st.channelLength + 1) st

/-! ## Definitions modelled from the specification's words (for
refinement-style comparison with the code's behaviour) -/

/-- Modelled from the spec: "no pins remain after the current column" —
every column index strictly beyond `current_column` carries net 0 on both
sides. -/
def specNoPinsAfterB (st : RState) : Bool :=
  (st.T.enum.all fun p => decide (st.currentColumn < p.1 → p.2 = 0)) &&
    (st.B.enum.all fun p => decide (st.currentColumn < p.1 → p.2 = 0))

/-- Modelled from the spec: the loop-exit condition claimed in C10 — "no
pins remain after the current column and no net owns any track". -/
def specLoopExitCondB (st : RState) : Bool :=
  specNoPinsAfterB st && (occupiedD st).length == 0

/-- Modelled from the spec: the first score component claimed in C5 — one
per net whose jogs in the pattern are contiguous, cover that net's entire
current track set, and which has no pin remaining in the channel. -/
def specFinishedBonus (st : RState) (pattern : List (List (ℕ × ℕ))) : ℕ :=
  (((splitNetsList st).zip pattern).filter fun np =>
    contiguousB np.2 ∧ (st.Y np.1).all (· ∈ groupTracks np.2) ∧
      nextPin st np.1 none = none).length

end RF83

namespace RF83

/-! ## Basic lemmas about the list-set operations -/

theorem mem_insertS {x y : ℕ} {s : List ℕ} : x ∈ insertS y s ↔ x = y ∨ x ∈ s := by
  induction s with
  | nil => simp [insertS]
  | cons z zs ih =>
    simp only [insertS]
    split
    · simp [List.mem_cons]
    · split
      · rename_i h1 h2
        subst h2
        simp [List.mem_cons]
      · simp [List.mem_cons, ih]
        tauto

theorem mem_unionS {x : ℕ} {s t : List ℕ} : x ∈ unionS s t ↔ x ∈ s ∨ x ∈ t := by
  induction s with
  | nil => simp [unionS]
  | cons z zs ih =>
    simp only [unionS, List.foldr] at ih ⊢
    rw [mem_insertS, ih]
    simp [List.mem_cons]
    tauto

theorem mem_setOf {x : ℕ} {l : List ℕ} : x ∈ setOf l ↔ x ∈ l := by
  induction l with
  | nil => simp [setOf]
  | cons z zs ih =>
    simp only [setOf, List.foldr] at ih ⊢
    rw [mem_insertS, ih]
    simp [List.mem_cons]

theorem mem_insertAsc {x y : ℕ} {s : List ℕ} : x ∈ insertAsc y s ↔ x = y ∨ x ∈ s := by
  induction s with
  | nil => simp [insertAsc]
  | cons z zs ih =>
    simp only [insertAsc]
    split
    · simp [List.mem_cons]
    · simp [List.mem_cons, ih]
      tauto

theorem mem_sortAsc {x : ℕ} {l : List ℕ} : x ∈ sortAsc l ↔ x ∈ l := by
  induction l with
  | nil => simp [sortAsc]
  | cons z zs ih =>
    simp only [sortAsc, List.foldr] at ih ⊢
    rw [mem_insertAsc, ih]
    simp [List.mem_cons]

theorem minS_eq_none {s : List ℕ} : minS s = none ↔ s = [] := by
  cases s with
  | nil => simp [minS]
  | cons a t =>
    simp only [minS, List.foldr]
    cases (t.foldr (fun a r =>
        match r with | none => some a | some b => some (min a b)) none) <;> simp

theorem minS_cons {a : ℕ} {s : List ℕ} :
    minS (a :: s) =
      some (match minS s with | none => a | some b => min a b) := by
  simp only [minS, List.foldr]
  cases (s.foldr (fun a r =>
      match r with | none => some a | some b => some (min a b)) none) <;> rfl

theorem minS_eq_some_iff {s : List ℕ} {m : ℕ} :
    minS s = some m ↔ m ∈ s ∧ ∀ x ∈ s, m ≤ x := by
  induction s generalizing m with
  | nil => simp [minS]
  | cons a t ih =>
    rw [minS_cons]
    cases h : minS t with
    | none =>
      have ht : t = [] := minS_eq_none.mp h
      subst ht
      constructor
      · rintro ⟨rfl⟩
        simp
      · rintro ⟨hm, hle⟩
        simp only [List.mem_singleton] at hm
        simp [hm]
    | some b =>
      obtain ⟨hbmem, hble⟩ := ih.mp h
      dsimp only
      constructor
      · rintro ⟨rfl⟩
        rcases Nat.le_total a b with hab | hba
        · rw [show min a b = a by omega]
          exact ⟨List.mem_cons_self _ _, by
            intro x hx
            rcases List.mem_cons.mp hx with rfl | hx
            · exact le_refl _
            · exact le_trans hab (hble x hx)⟩
        · rw [show min a b = b by omega]
          exact ⟨List.mem_cons_of_mem _ hbmem, by
            intro x hx
            rcases List.mem_cons.mp hx with rfl | hx
            · exact hba
            · exact hble x hx⟩
      · rintro ⟨hm, hle⟩
        have h1 : m ≤ a := hle a (List.mem_cons_self _ _)
        have h2 : m ≤ b := hle b (List.mem_cons_of_mem _ hbmem)
        rcases List.mem_cons.mp hm with rfl | hm
        · congr 1
          exact min_eq_left h2
        · have hbm : b ≤ m := hble m hm
          have : b = m := le_antisymm hbm h2
          subst this
          congr 1
          exact min_eq_right h1

theorem maxS_eq_none {s : List ℕ} : maxS s = none ↔ s = [] := by
  cases s with
  | nil => simp [maxS]
  | cons a t =>
    simp only [maxS, List.foldr]
    cases (t.foldr (fun a r =>
        match r with | none => some a | some b => some (max a b)) none) <;> simp

theorem maxS_cons {a : ℕ} {s : List ℕ} :
    maxS (a :: s) =
      some (match maxS s with | none => a | some b => max a b) := by
  simp only [maxS, List.foldr]
  cases (s.foldr (fun a r =>
      match r with | none => some a | some b => some (max a b)) none) <;> rfl

theorem maxS_eq_some_iff {s : List ℕ} {m : ℕ} :
    maxS s = some m ↔ m ∈ s ∧ ∀ x ∈ s, x ≤ m := by
  induction s generalizing m with
  | nil => simp [maxS]
  | cons a t ih =>
    rw [maxS_cons]
    cases h : maxS t with
    | none =>
      have ht : t = [] := maxS_eq_none.mp h
      subst ht
      constructor
      · rintro ⟨rfl⟩
        simp
      · rintro ⟨hm, hle⟩
        simp only [List.mem_singleton] at hm
        simp [hm]
    | some b =>
      obtain ⟨hbmem, hble⟩ := ih.mp h
      dsimp only
      constructor
      · rintro ⟨rfl⟩
        rcases Nat.le_total a b with hab | hba
        · rw [show max a b = b by omega]
          exact ⟨List.mem_cons_of_mem _ hbmem, by
            intro x hx
            rcases List.mem_cons.mp hx with rfl | hx
            · exact hab
            · exact hble x hx⟩
        · rw [show max a b = a by omega]
          exact ⟨List.mem_cons_self _ _, by
            intro x hx
            rcases List.mem_cons.mp hx with rfl | hx
            · exact le_refl _
            · exact le_trans (hble x hx) hba⟩
      · rintro ⟨hm, hle⟩
        have h1 : a ≤ m := hle a (List.mem_cons_self _ _)
        have h2 : b ≤ m := hle b (List.mem_cons_of_mem _ hbmem)
        rcases List.mem_cons.mp hm with rfl | hm
        · congr 1
          exact max_eq_left h2
        · have hbm : m ≤ b := hble m hm
          have : b = m := le_antisymm h2 hbm
          subst this
          congr 1
          exact max_eq_right h1

/-- Folding a state through a list with a step that preserves a property
preserves the property. -/
theorem foldl_preserve {α β : Type} {P : β → Prop} {step : β → α → β}
    (h : ∀ s x, P s → P (step s x)) :
    ∀ (l : List α) (s : β), P s → P (l.foldl step s) := by
  intro l
  induction l with
  | nil => intro s hs; exact hs
  | cons x xs ih => intro s hs; exact ih _ (h _ _ hs)

end RF83

namespace RF83

/-! ## Concrete routing inputs and states used by the claims -/

/-- Scenario A of the specification: `top=[1,0,2,0,3,4]`,
`bottom=[1,0,0,2,4,3]`. -/
def scenarioA : RState :=
  mkRouter [1, 0, 2, 0, 3, 4] [1, 0, 0, 2, 4, 3] none 1 10

/-- Scenario B of the specification: `top=[1,0,1,0,2]`,
`bottom=[0,2,0,1,0]`, width 9. -/
def scenarioB : RState :=
  mkRouter [1, 0, 1, 0, 2] [0, 2, 0, 1, 0] (some 9) 1 10

/-- An input whose routing makes net 2's bottom-pin wire cross the track
that net 1 occupies, so that the two nets' wire graphs share a grid
node. -/
def crossingInput : RState :=
  mkRouter [0, 0, 0, 0] [1, 2, 1, 2] none 1 10

/-- Two further routing inputs exercising split nets, collapses and
compression. -/
def denseInputA : RState :=
  mkRouter [1, 0, 2, 0, 3, 0, 1, 0, 2] [2, 0, 1, 0, 1, 0, 3, 0, 2] none 1 10

/-- See `denseInputA`. -/
def denseInputB : RState :=
  mkRouter [1, 2, 3, 0, 0, 3, 2, 1] [3, 2, 1, 0, 0, 1, 2, 3] none 2 10

/-- All-zero pin arrays of length 3 (the specification's Scenario D). -/
def allZeroInput : RState :=
  mkRouter [0, 0, 0] [0, 0, 0] none 1 10

/-- Did the column loop abort with a Python `TypeError`? -/
def isTypeErr : LoopRes → Bool
  | .err .typeError _ => true
  | _ => false

/-- Is the loop result the out-of-fuel marker (which the fuel bound makes
unreachable)? -/
def isOutOfFuel : LoopRes → Bool
  | .outOfFuel _ => true
  | _ => false

/-! ## C1: the no-overlap invariant -/

/-- C1, counterexample.  The claim states that after every phase of every
column the wire graphs of two distinct nets share no grid node and no
unit-length segment.  On input `top=[0,0,0,0]`, `bottom=[1,2,1,2]` this
fails: at column 1 the Pin Connector runs net 2's bottom-pin wire from
`(1,0)` to `(1,2)` straight across track 1, which net 1 occupies with a
horizontal wire through `(1,1)`, so the two nets share the grid node
`(1,1)` from that phase on. -/
theorem c1_counterexample :
    ((fullTrace crossingInput).all fun s => netsNodeDisjointB s.G) = false := by
  decide

/-- C1, amended: after every phase of every column of a run, the wire
graphs of two distinct nets share no unit-length segment; they may share
grid nodes where a vertical wire of one net crosses or abuts wiring of
another net (the routing is two-layer, so such crossings are legal).
Verified exhaustively over the full phase-by-phase traces of the
specification's Scenario A and Scenario B inputs, the counterexample
input above, and two further split-net-heavy inputs. -/
theorem c1_edge_disjointness :
    ((fullTrace scenarioA).all fun s => netsEdgeDisjointB s.G) = true ∧
    ((fullTrace scenarioB).all fun s => netsEdgeDisjointB s.G) = true ∧
    ((fullTrace crossingInput).all fun s => netsEdgeDisjointB s.G) = true ∧
    ((fullTrace denseInputA).all fun s => netsEdgeDisjointB s.G) = true ∧
    ((fullTrace denseInputB).all fun s => netsEdgeDisjointB s.G) = true := by
  exact ⟨by decide, by decide, by decide, by decide, by decide⟩

/-! ## C2: all-zero pin arrays -/

/-- C2.  The claim states that routing all-zero pin arrays terminates
immediately with an empty wire graph and an unchanged channel width.  In
the code, such inputs leave the router with no nets, so on the final
column `finished` evaluates `occupied_tracks`, whose `set.union(*[])`
call raises `TypeError`; the column loop therefore crashes instead of
terminating.  This theorem evaluates the code at the failing input. -/
theorem c2_allZero_raises : isTypeErr (route allZeroInput) = true := by
  decide

/-! ## C9: the retry controller -/

/-- A post-failure state in which widening has driven `channel_width` (7)
above `initial_channel_width` (5). -/
def staleWidthState : RState :=
  { T := [1], B := [1], channelLength := 1, initialChannelWidth := 5,
    channelWidth := 7, currentColumn := 3, minimumJogLength := 1,
    steadyNetConstant := 10, nets := [1], Y := fun _ => [], G := [] }

/-- C9, counterexample.  The claim states that on each routing failure
all per-run mutable state is reset.  But `Router.reset` never touches
`channel_width`: after resetting with a new initial width of 6, the
working channel width is still the stale 7 from the failed run. -/
theorem c9_counterexample :
    (resetR staleWidthState (some 6) none none none none).channelWidth = 7 ∧
    (resetR staleWidthState (some 6) none none none none).initialChannelWidth = 6 := by
  exact ⟨rfl, rfl⟩

/-- C9, amended.  On each retry, `reset` re-initialises the current
column, every net's track set, the wire graph and the channel length, and
installs the incremented initial channel width — but the working
`channel_width` keeps its value from the failed run.  Exhausting the
budget emits messages naming the two pin sequences, the attempted initial
channel width and the minimum jog length, and raises `ValueError` (whose
own message is generic; the context lives in the printed output). -/
theorem c9_reset_and_exhaustion :
    (∀ st : RState,
      (resetR st (some (st.initialChannelWidth + 1)) none none none none).currentColumn = 0 ∧
      (∀ n, (resetR st (some (st.initialChannelWidth + 1)) none none none none).Y n = []) ∧
      (resetR st (some (st.initialChannelWidth + 1)) none none none none).G = [] ∧
      (resetR st (some (st.initialChannelWidth + 1)) none none none none).channelLength = st.T.length ∧
      (resetR st (some (st.initialChannelWidth + 1)) none none none none).channelWidth = st.channelWidth ∧
      (resetR st (some (st.initialChannelWidth + 1)) none none none none).initialChannelWidth = st.initialChannelWidth + 1 ∧
      (resetR st (some (st.initialChannelWidth + 1)) none none none none).T = st.T ∧
      (resetR st (some (st.initialChannelWidth + 1)) none none none none).B = st.B ∧
      (resetR st (some (st.initialChannelWidth + 1)) none none none none).minimumJogLength = st.minimumJogLength) ∧
    (∀ st : RState,
      routeAndRetry st 0 =
        ([.failedToRoute st.T st.B, .cfgInitialWidth st.initialChannelWidth,
          .cfgMinJog st.minimumJogLength], .error .valueError)) := by
  constructor
  · intro st
    have h : ¬ st.initialChannelWidth + 1 = 0 := Nat.succ_ne_zero _
    simp [resetR, h]
  · intro st
    rfl

end RF83

namespace RF83

/-! ## C6: determinism and strictness of jog scoring -/

theorem zipFirstDiff_swap :
    ∀ (l1 l2 : List ℤ) (b : Bool),
      zipFirstDiff l1 l2 = some b → zipFirstDiff l2 l1 = some (!b) := by
  intro l1
  induction l1 with
  | nil =>
    intro l2 b h
    cases l2 <;> simp [zipFirstDiff] at h
  | cons a as ih =>
    intro l2 b h
    cases l2 with
    | nil => simp [zipFirstDiff] at h
    | cons c cs =>
      simp only [zipFirstDiff] at h ⊢
      by_cases hac : a = c
      · subst hac
        rw [if_neg (by simp)] at h ⊢
        exact ih _ _ h
      · have hca : c ≠ a := fun e => hac e.symm
        rw [if_pos hac] at h
        rw [if_pos hca]
        have hb : b = decide (c < a) := by
          injection h with h2
          exact h2.symm
        subst hb
        rcases lt_or_gt_of_ne (show a ≠ c from hac) with h1 | h1
        · simp [h1, not_lt_of_gt h1]
        · simp [h1, not_lt_of_gt h1]

theorem zipFirstDiff_none_swap :
    ∀ (l1 l2 : List ℤ), zipFirstDiff l1 l2 = none → zipFirstDiff l2 l1 = none := by
  intro l1
  induction l1 with
  | nil =>
    intro l2 _
    cases l2 <;> rfl
  | cons a as ih =>
    intro l2 h
    cases l2 with
    | nil => rfl
    | cons c cs =>
      simp only [zipFirstDiff] at h ⊢
      by_cases hac : a = c
      · subst hac
        rw [if_neg (by simp)] at h ⊢
        exact ih _ h
      · rw [if_pos hac] at h
        exact absurd h (by simp)

theorem groupClosesNet_perm {o1 o2 : List ℕ} (st : RState)
    (h : o1.Perm o2) (g : List (ℕ × ℕ)) :
    groupClosesNet st o1 g = groupClosesNet st o2 g := by
  unfold groupClosesNet
  refine Bool.eq_iff_iff.mpr ?_
  simp only [List.any_eq_true]
  constructor
  · rintro ⟨n, hn, hq⟩
    exact ⟨n, ((h.filter _).mem_iff).mp hn, hq⟩
  · rintro ⟨n, hn, hq⟩
    exact ⟨n, ((h.filter _).mem_iff).mpr hn, hq⟩

/-- C6.  Jog scoring is deterministic: the score of a fixed candidate
pattern does not depend on the one run-time-dependent ingredient, the
enumeration order of `self.Y.items()` used to collect the
almost-finished nets (everything else `evaluate_jogs` reads is a pure
function of the router state).  And `compare_scores` is strict: no two
scores are each judged better than the other. -/
theorem c6_scoring_deterministic_and_strict :
    (∀ (o1 o2 : List ℕ) (st : RState) (pattern : List (List (ℕ × ℕ))),
      o1.Perm o2 →
      evaluateJogsWith o1 st pattern = evaluateJogsWith o2 st pattern) ∧
    (∀ s1 s2 : Score,
      ¬ (compareScores s1 s2 = true ∧ compareScores s2 s1 = true)) := by
  constructor
  · intro o1 o2 st pattern hperm
    unfold evaluateJogsWith
    have hfilter :
        pattern.filter (fun g => decide (g ≠ [] ∧ contiguousB g = true ∧ groupClosesNet st o1 g = true)) =
        pattern.filter (fun g => decide (g ≠ [] ∧ contiguousB g = true ∧ groupClosesNet st o2 g = true)) := by
      apply List.filter_congr
      intro g _
      rw [groupClosesNet_perm st hperm g]
    simp only [hfilter]
  · intro s1 s2 hc
    obtain ⟨h12, h21⟩ := hc
    obtain ⟨n1, r1, j1⟩ := s1
    obtain ⟨n2, r2, j2⟩ := s2
    simp only [compareScores] at h12 h21
    by_cases hn : n1 = n2
    · subst hn
      rw [if_neg (by simp)] at h12 h21
      by_cases hr : r1 = r2
      · subst hr
        rw [if_neg (by simp)] at h12 h21
        simp at h12 h21
        omega
      · have hr2 : r2 ≠ r1 := fun e => hr e.symm
        rw [if_pos hr] at h12
        rw [if_pos hr2] at h21
        cases hz : zipFirstDiff r1 r2 with
        | none =>
          have hz2 := zipFirstDiff_none_swap _ _ hz
          rw [hz] at h12
          rw [hz2] at h21
          simp at h12 h21
          omega
        | some b =>
          have hz2 := zipFirstDiff_swap _ _ _ hz
          rw [hz] at h12
          rw [hz2] at h21
          cases b with
          | true => simp at h21
          | false => simp at h12
    · have hn2 : n2 ≠ n1 := fun e => hn e.symm
      rw [if_pos hn] at h12
      rw [if_pos hn2] at h21
      simp at h12 h21
      omega

/-- The state used by the jog-scoring witnesses: column 2 of the input
`top=[0,1,0,0,2,3]`, `bottom=[3,1,0,0,2,0]`, channel width 5, with net 1
split on tracks {2,4} (no pins left), net 2 split on {1,5} (pin coming at
column 4) and net 3 on track 3. -/
def evalState : RState :=
  { T := [0, 1, 0, 0, 2, 3], B := [3, 1, 0, 0, 2, 0], channelLength := 6,
    initialChannelWidth := 5, channelWidth := 5, currentColumn := 2,
    minimumJogLength := 1, steadyNetConstant := 10,
    nets := [1, 2, 3],
    Y := fun n =>
      if n = 1 then [2, 4] else if n = 2 then [1, 5] else if n = 3 then [3] else [],
    G := [] }

/-- The candidate pattern pairing the jog (2,4) of net 1 with the jog
(1,5) of net 2. -/
def evalPattern : List (List (ℕ × ℕ)) :=
  [[(2, 4)], [(1, 5)]]

/-- Witness for C6: scoring `evalPattern` in `evalState` yields the same
3-tuple whichever way the almost-finished-net search enumerates the
nets. -/
theorem c6_witness :
    evaluateJogsWith [3, 2, 1] evalState evalPattern =
      evaluateJogsWith [1, 2, 3] evalState evalPattern :=
  c6_scoring_deterministic_and_strict.1 [3, 2, 1] [1, 2, 3] evalState evalPattern
    (by decide)

end RF83

namespace RF83

/-! ## C8: effects of channel widening -/

/-- C8.  After `widen_channel`: the channel width has grown by exactly
one; the graph has the same segments, each endpoint with a track
coordinate at or above the insertion track shifted up by exactly one and
every other endpoint unchanged (so a segment straddling the insertion
point gets one endpoint shifted, not both); each net's occupied-track set
is the image of its old set under the same shift; the net population is
untouched; and the shift is strictly monotone, so each net's tracks keep
their relative order. -/
theorem c8_widen_spec (st : RState) (side : Option Side) :
    (widenChannel st side).channelWidth = st.channelWidth + 1 ∧
    (widenChannel st side).G.length = st.G.length ∧
    (∀ (i : ℕ) (e : Edge), st.G[i]? = some e →
      (widenChannel st side).G[i]? =
        some ⟨(e.a.1, if newTrackPos st side ≤ e.a.2 then e.a.2 + 1 else e.a.2),
              (e.b.1, if newTrackPos st side ≤ e.b.2 then e.b.2 + 1 else e.b.2),
              e.net⟩) ∧
    (∀ n, (widenChannel st side).Y n = (st.Y n).map (shiftTrack (newTrackPos st side))) ∧
    (widenChannel st side).nets = st.nets ∧
    (∀ a b : ℕ, a < b →
      shiftTrack (newTrackPos st side) a < shiftTrack (newTrackPos st side) b) := by
  refine ⟨rfl, ?_, ?_, fun n => rfl, rfl, ?_⟩
  · simp [widenChannel]
  · intro i e he
    show (st.G.map fun e =>
      (⟨(e.a.1, shiftTrack (newTrackPos st side) e.a.2),
        (e.b.1, shiftTrack (newTrackPos st side) e.b.2), e.net⟩ : Edge))[i]? = _
    rw [List.getElem?_map, he]
    rfl
  · intro a b hab
    unfold shiftTrack
    split <;> split <;> omega

/-- A state with net 1 on tracks 2 and 5 of a width-5 channel and one
stored vertical segment from `(0,2)` to `(0,5)` (straddling the
midline insertion point). -/
def widenState : RState :=
  { T := [1, 1], B := [1, 0], channelLength := 2, initialChannelWidth := 5,
    channelWidth := 5, currentColumn := 1, minimumJogLength := 1,
    steadyNetConstant := 10, nets := [1],
    Y := fun n => if n = 1 then [2, 5] else [],
    G := [⟨(0, 2), (0, 5), 1⟩] }

/-- Witness for C8: widening `widenState` at the midline shifts only the
upper endpoint of the stored segment. -/
theorem c8_witness :
    (widenChannel widenState none).G[0]? =
      some ⟨(0, if newTrackPos widenState none ≤ 2 then 2 + 1 else 2),
            (0, if newTrackPos widenState none ≤ 5 then 5 + 1 else 5), 1⟩ :=
  (c8_widen_spec widenState none).2.2.1 0 ⟨(0, 2), (0, 5), 1⟩ rfl

end RF83

namespace RF83

/-! ## C3: next_pin -/

theorem mem_pinColsNet {l : List ℕ} {cc n j : ℕ} :
    j ∈ pinColsNet l cc n ↔ j < l.length ∧ l.getD j 0 = n ∧ cc < j := by
  unfold pinColsNet
  rw [List.mem_filterMap]
  constructor
  · rintro ⟨p, hp, hf⟩
    by_cases hc : p.2 = n ∧ cc < p.1
    · rw [if_pos hc] at hf
      injection hf with hf
      subst hf
      have hmem := List.mem_enum_iff_getElem?.mp hp
      obtain ⟨hlt, hget⟩ := List.getElem?_eq_some.mp hmem
      refine ⟨hlt, ?_, hc.2⟩
      rw [List.getD_eq_getElem?_getD, hmem]
      exact hc.1
    · rw [if_neg hc] at hf
      exact absurd hf (by simp)
  · rintro ⟨hlt, hget, hcc⟩
    refine ⟨(j, n), ?_, ?_⟩
    · rw [List.mem_enum_iff_getElem?]
      rw [List.getD_eq_getElem?_getD] at hget
      cases hval : l[j]? with
      | none => exact absurd hval (by simp [List.getElem?_eq_some]; omega)
      | some a =>
        rw [hval] at hget
        simp at hget
        subst hget
        rfl
    · rw [if_pos ⟨rfl, hcc⟩]

theorem mem_colsAfter {l : List ℕ} {cc j : ℕ} :
    j ∈ colsAfter l cc ↔ j < l.length ∧ cc < j := by
  unfold colsAfter
  rw [List.mem_filterMap]
  constructor
  · rintro ⟨p, hp, hf⟩
    by_cases hc : cc < p.1
    · rw [if_pos hc] at hf
      injection hf with hf
      subst hf
      have hmem := List.mem_enum_iff_getElem?.mp hp
      obtain ⟨hlt, _⟩ := List.getElem?_eq_some.mp hmem
      exact ⟨hlt, hc⟩
    · rw [if_neg hc] at hf
      exact absurd hf (by simp)
  · rintro ⟨hlt, hcc⟩
    refine ⟨(j, l[j]), ?_, ?_⟩
    · rw [List.mem_enum_iff_getElem?]
      simp [hlt]
    · rw [if_pos hcc]

/-- The claim's reading of `next_pin(net, side)`: `j` is a column
strictly after the current one carrying a pin of `net` on the given list,
and no earlier such column exists. -/
def earliestPinOn (l : List ℕ) (cc n j : ℕ) : Prop :=
  cc < j ∧ j < l.length ∧ l.getD j 0 = n ∧
    ∀ i < j, cc < i → l.getD i 0 ≠ n

/-- The claim's reading of `next_pin(net)` with no side: earliest column
strictly after the current one with a pin of `net` on either side. -/
def earliestPinEither (T B : List ℕ) (cc n j : ℕ) : Prop :=
  cc < j ∧
    ((j < T.length ∧ T.getD j 0 = n) ∨ (j < B.length ∧ B.getD j 0 = n)) ∧
    ∀ i < j, cc < i → (i < T.length → T.getD i 0 ≠ n) ∧ (i < B.length → B.getD i 0 ≠ n)

theorem nextPin_T_char (st : RState) (n j : ℕ) (hn : n ≠ 0) :
    nextPin st n (some .T) = some j ↔ earliestPinOn st.T st.currentColumn n j := by
  show minS (if n ≠ 0 then _ else _) = some j ↔ _
  rw [if_pos hn, minS_eq_some_iff]
  unfold earliestPinOn
  constructor
  · rintro ⟨hmem, hmin⟩
    obtain ⟨hlt, hget, hcc⟩ := mem_pinColsNet.mp hmem
    refine ⟨hcc, hlt, hget, ?_⟩
    intro i hij hcci hgi
    have : i ∈ pinColsNet st.T st.currentColumn n :=
      mem_pinColsNet.mpr ⟨lt_trans hij hlt, hgi, hcci⟩
    exact absurd (hmin i this) (by omega)
  · rintro ⟨hcc, hlt, hget, hno⟩
    refine ⟨mem_pinColsNet.mpr ⟨hlt, hget, hcc⟩, ?_⟩
    intro x hx
    obtain ⟨hxl, hxg, hxc⟩ := mem_pinColsNet.mp hx
    by_contra hlt2
    exact hno x (by omega) hxc hxg

theorem nextPin_B_char (st : RState) (n j : ℕ) (hn : n ≠ 0) :
    nextPin st n (some .B) = some j ↔ earliestPinOn st.B st.currentColumn n j := by
  show minS (if n ≠ 0 then _ else _) = some j ↔ _
  rw [if_pos hn, minS_eq_some_iff]
  unfold earliestPinOn
  constructor
  · rintro ⟨hmem, hmin⟩
    obtain ⟨hlt, hget, hcc⟩ := mem_pinColsNet.mp hmem
    refine ⟨hcc, hlt, hget, ?_⟩
    intro i hij hcci hgi
    have : i ∈ pinColsNet st.B st.currentColumn n :=
      mem_pinColsNet.mpr ⟨lt_trans hij hlt, hgi, hcci⟩
    exact absurd (hmin i this) (by omega)
  · rintro ⟨hcc, hlt, hget, hno⟩
    refine ⟨mem_pinColsNet.mpr ⟨hlt, hget, hcc⟩, ?_⟩
    intro x hx
    obtain ⟨hxl, hxg, hxc⟩ := mem_pinColsNet.mp hx
    by_contra hlt2
    exact hno x (by omega) hxc hxg

theorem nextPin_none_char (st : RState) (n j : ℕ) (hn : n ≠ 0) :
    nextPin st n none = some j ↔
      earliestPinEither st.T st.B st.currentColumn n j := by
  show minS ((if n ≠ 0 then _ else _) ++ (if n ≠ 0 then _ else _)) = some j ↔ _
  rw [if_pos hn, if_pos hn, minS_eq_some_iff]
  unfold earliestPinEither
  constructor
  · rintro ⟨hmem, hmin⟩
    rcases List.mem_append.mp hmem with hmem | hmem
    all_goals obtain ⟨hlt, hget, hcc⟩ := mem_pinColsNet.mp hmem
    · refine ⟨hcc, Or.inl ⟨hlt, hget⟩, ?_⟩
      intro i hij hcci
      constructor
      · intro hil hgi
        have : i ∈ pinColsNet st.T st.currentColumn n ++ pinColsNet st.B st.currentColumn n :=
          List.mem_append.mpr (Or.inl (mem_pinColsNet.mpr ⟨hil, hgi, hcci⟩))
        exact absurd (hmin i this) (by omega)
      · intro hil hgi
        have : i ∈ pinColsNet st.T st.currentColumn n ++ pinColsNet st.B st.currentColumn n :=
          List.mem_append.mpr (Or.inr (mem_pinColsNet.mpr ⟨hil, hgi, hcci⟩))
        exact absurd (hmin i this) (by omega)
    · refine ⟨hcc, Or.inr ⟨hlt, hget⟩, ?_⟩
      intro i hij hcci
      constructor
      · intro hil hgi
        have : i ∈ pinColsNet st.T st.currentColumn n ++ pinColsNet st.B st.currentColumn n :=
          List.mem_append.mpr (Or.inl (mem_pinColsNet.mpr ⟨hil, hgi, hcci⟩))
        exact absurd (hmin i this) (by omega)
      · intro hil hgi
        have : i ∈ pinColsNet st.T st.currentColumn n ++ pinColsNet st.B st.currentColumn n :=
          List.mem_append.mpr (Or.inr (mem_pinColsNet.mpr ⟨hil, hgi, hcci⟩))
        exact absurd (hmin i this) (by omega)
  · rintro ⟨hcc, hj, hno⟩
    constructor
    · rcases hj with ⟨hlt, hget⟩ | ⟨hlt, hget⟩
      · exact List.mem_append.mpr (Or.inl (mem_pinColsNet.mpr ⟨hlt, hget, hcc⟩))
      · exact List.mem_append.mpr (Or.inr (mem_pinColsNet.mpr ⟨hlt, hget, hcc⟩))
    · intro x hx
      by_contra hlt2
      rcases List.mem_append.mp hx with hx | hx
      all_goals obtain ⟨hxl, hxg, hxc⟩ := mem_pinColsNet.mp hx
      · exact (hno x (by omega) hxc).1 hxl hxg
      · exact (hno x (by omega) hxc).2 hxl hxg

/-- C3, amended.  With a net specified, `next_pin` does return the
earliest column strictly after the current one at which that net has a
pin on the given side (or on either side when no side is given), and
`none` when no such pin exists.  With no net specified, however, it
ignores pins entirely: it returns the earliest column index strictly
after the current one that lies inside the input arrays, whether or not
any pin is there. -/
theorem c3_nextPin_characterization :
    (∀ (st : RState) (n j : ℕ), n ≠ 0 →
      (nextPin st n (some .T) = some j ↔ earliestPinOn st.T st.currentColumn n j) ∧
      (nextPin st n (some .B) = some j ↔ earliestPinOn st.B st.currentColumn n j) ∧
      (nextPin st n none = some j ↔
        earliestPinEither st.T st.B st.currentColumn n j)) ∧
    (∀ st : RState, st.B.length = st.T.length →
      nextPin st 0 none =
        if st.currentColumn + 1 < st.T.length then some (st.currentColumn + 1)
        else none) := by
  constructor
  · intro st n j hn
    exact ⟨nextPin_T_char st n j hn, nextPin_B_char st n j hn,
      nextPin_none_char st n j hn⟩
  · intro st hlen
    show minS ((if (0 : ℕ) ≠ 0 then _ else _) ++ (if (0 : ℕ) ≠ 0 then _ else _)) = _
    rw [if_neg (by simp), if_neg (by simp)]
    by_cases h : st.currentColumn + 1 < st.T.length
    · rw [if_pos h]
      rw [minS_eq_some_iff]
      constructor
      · exact List.mem_append.mpr (Or.inl (mem_colsAfter.mpr ⟨h, Nat.lt_succ_self _⟩))
      · intro x hx
        rcases List.mem_append.mp hx with hx | hx
        all_goals obtain ⟨_, hcc⟩ := mem_colsAfter.mp hx
        all_goals omega
    · rw [if_neg h]
      rw [minS_eq_none]
      rw [List.eq_nil_iff_forall_not_mem]
      intro x hx
      rcases List.mem_append.mp hx with hx | hx
      all_goals obtain ⟨hl, hcc⟩ := mem_colsAfter.mp hx
      · omega
      · omega

/-- The input `top=[1,0,0]`, `bottom=[1,0,0]`: pins at column 0 only. -/
def trailingZerosInput : RState :=
  mkRouter [1, 0, 0] [1, 0, 0] none 1 10

/-- C3, counterexample.  With no net specified the claim says `next_pin`
returns the earliest later column at which any net has a pin, and `none`
when no such pin exists.  On `top=bottom=[1,0,0]` at column 0 no pin
exists after the current column (`specNoPinsAfterB` holds), yet
`next_pin()` returns column 1. -/
theorem c3_counterexample :
    nextPin trailingZerosInput 0 none = some 1 ∧
    specNoPinsAfterB trailingZerosInput = true := by
  exact ⟨by decide, by decide⟩

/-- Witness for C3: on Scenario A at column 0, net 2's next top pin is at
column 2, and the no-net call returns column 1 (the next in-range index). -/
theorem c3_witness :
    nextPin scenarioA 2 (some .T) = some 2 ∧ nextPin scenarioA 0 none = some 1 := by
  constructor
  · exact ((c3_nextPin_characterization.1 scenarioA 2 2 (by decide)).1).mpr
      (by refine ⟨by decide, by decide, by decide, ?_⟩; decide)
  · have h := c3_nextPin_characterization.2 scenarioA (by decide)
    rw [if_pos (by decide)] at h
    exact h

end RF83

namespace RF83

/-! ## C4: track choice of the pin connector -/

/-- A column-0 state where net 1 already owns track 5 of a width-5
channel, tracks 1-4 are free and the bottom pin is net 1. -/
def pinReuseState : RState :=
  { T := [0], B := [1], channelLength := 1, initialChannelWidth := 5,
    channelWidth := 5, currentColumn := 0, minimumJogLength := 1,
    steadyNetConstant := 10, nets := [1],
    Y := fun n => if n = 1 then [5] else [], G := [] }

/-- C4, counterexample.  The claim says a pin of a net that already owns
tracks reuses an owned track and allocates no new one.  Here net 1 owns
track 5, yet `connect_pins` attaches its bottom pin to the free track 1
(the minimum of `free_tracks ∪ Y[net]`), allocating a track the net did
not own. -/
theorem c4_counterexample :
    (connectPins pinReuseState).Y 1 = [1, 5] ∧
    pinReuseState.Y 1 = [5] ∧ ¬ (1 : ℕ) ∈ pinReuseState.Y 1 := by
  exact ⟨by decide, by decide, by decide⟩

/-- A column-0 state where net 1 owns nothing yet and the bottom pin is
net 1 (tracks 1-5 free). -/
def pinFreshState : RState :=
  { T := [0], B := [1], channelLength := 1, initialChannelWidth := 5,
    channelWidth := 5, currentColumn := 0, minimumJogLength := 1,
    steadyNetConstant := 10, nets := [1],
    Y := fun _ => [], G := [] }

/-- A column-0 state with only a top pin: net 2 owns track 1 of a
width-5 channel, tracks 2-5 are free. -/
def pinTopState : RState :=
  { T := [2], B := [0], channelLength := 1, initialChannelWidth := 5,
    channelWidth := 5, currentColumn := 0, minimumJogLength := 1,
    steadyNetConstant := 10, nets := [2],
    Y := fun n => if n = 2 then [1] else [], G := [] }

/-- A column-0 state with both pins of net 1, which already owns track 3
of a width-5 channel (so the straight-through special case is off). -/
def pinSameState : RState :=
  { T := [1], B := [1], channelLength := 1, initialChannelWidth := 5,
    channelWidth := 5, currentColumn := 0, minimumJogLength := 1,
    steadyNetConstant := 10, nets := [1],
    Y := fun n => if n = 1 then [3] else [], G := [] }

/-- A column-0 state with a top pin of net 2 and a bottom pin of net 1,
all five tracks free: no overlap. -/
def pinBothState : RState :=
  { T := [2], B := [1], channelLength := 1, initialChannelWidth := 5,
    channelWidth := 5, currentColumn := 0, minimumJogLength := 1,
    steadyNetConstant := 10, nets := [1, 2],
    Y := fun _ => [], G := [] }

/-- A width-2 overlap state (top net 2, bottom net 1 owning track 2,
only track 1 free) where the bottom wire is strictly shorter. -/
def pinLowState : RState :=
  { T := [2], B := [1], channelLength := 1, initialChannelWidth := 2,
    channelWidth := 2, currentColumn := 0, minimumJogLength := 1,
    steadyNetConstant := 10, nets := [1, 2],
    Y := fun n => if n = 1 then [2] else [], G := [] }

/-- A width-1 overlap state (top net 2, bottom net 1, track 1 free)
where the top wire is not longer than the bottom one. -/
def pinOverlapState : RState :=
  { T := [2], B := [1], channelLength := 1, initialChannelWidth := 1,
    channelWidth := 1, currentColumn := 0, minimumJogLength := 1,
    steadyNetConstant := 10, nets := [1, 2],
    Y := fun _ => [], G := [] }

/-- A width-1 state where the top net has no candidate track (no free
track, no owned track) while the bottom net owns track 1. -/
def pinNoTopState : RState :=
  { T := [2], B := [1], channelLength := 1, initialChannelWidth := 1,
    channelWidth := 1, currentColumn := 0, minimumJogLength := 1,
    steadyNetConstant := 10, nets := [1, 2],
    Y := fun n => if n = 1 then [1] else [], G := [] }

/-- A width-1 state where the bottom net has no candidate track while
the top net owns track 1. -/
def pinNoBottomState : RState :=
  { T := [2], B := [1], channelLength := 1, initialChannelWidth := 1,
    channelWidth := 1, currentColumn := 0, minimumJogLength := 1,
    steadyNetConstant := 10, nets := [1, 2],
    Y := fun n => if n = 2 then [1] else [], G := [] }

/-- C4, amended.  `connect_pins` picks each pin's track as the nearest
one to that pin's edge among the union of the free tracks and the net's
own tracks — the `min` of that union for a bottom pin, the `max` for a
top pin — with no precedence for owned tracks; when the net owns no
tracks this degenerates to the nearest free track (the true half of the
original claim).  Stated for every branch: the two candidate
characterizations, a bottom pin alone, a top pin alone, both pins of
the same net (outside the full-channel straight-through special case),
both pins of different nets without overlap (both pins connected), the
two overlap resolutions where only the shorter vertical wire is kept,
and the two one-sided no-candidate cases. -/
theorem c4_connectPins_nearest (st : RState) (tn bn : ℕ)
    (htn : st.T.getD st.currentColumn 0 = tn)
    (hbn : st.B.getD st.currentColumn 0 = bn) :
    (∀ m, bottomCandidate st bn = some m →
      m ∈ unionS (freeD st) (st.Y bn) ∧
      (∀ t ∈ unionS (freeD st) (st.Y bn), m ≤ t) ∧
      (st.Y bn = [] → m ∈ freeD st)) ∧
    (∀ m, topCandidate st tn = some m →
      m ∈ unionS (freeD st) (st.Y tn) ∧
      (∀ t ∈ unionS (freeD st) (st.Y tn), t ≤ m) ∧
      (st.Y tn = [] → m ∈ freeD st)) ∧
    (∀ m, tn = 0 → bn ≠ 0 → bottomCandidate st bn = some m →
      (connectPins st).Y bn = insertS m (st.Y bn) ∧
      (∀ n, n ≠ bn → (connectPins st).Y n = st.Y n) ∧
      (connectPins st).G =
        addEdgeL st.G (st.currentColumn, 0) (st.currentColumn, m) bn) ∧
    (∀ m, tn ≠ 0 → bn = 0 → topCandidate st tn = some m →
      (connectPins st).Y tn = insertS m (st.Y tn) ∧
      (∀ n, n ≠ tn → (connectPins st).Y n = st.Y n) ∧
      (connectPins st).G =
        addEdgeL st.G (st.currentColumn, min m (st.channelWidth + 1))
          (st.currentColumn, max m (st.channelWidth + 1)) tn) ∧
    (∀ bt tt, tn ≠ 0 → bn ≠ 0 → tn = bn →
      ¬ ((occupiedD st).length = st.channelWidth ∧ st.Y tn = [] ∧
          nextPin st tn none = none) →
      bottomCandidate st bn = some bt → topCandidate st tn = some tt →
      (connectPins st).Y tn = insertS tt (insertS bt (st.Y tn)) ∧
      (∀ n, n ≠ tn → (connectPins st).Y n = st.Y n) ∧
      (connectPins st).G =
        addEdgeL (addEdgeL st.G (st.currentColumn, 0) (st.currentColumn, bt) bn)
          (st.currentColumn, min tt (st.channelWidth + 1))
          (st.currentColumn, max tt (st.channelWidth + 1)) tn) ∧
    (∀ bt tt, tn ≠ 0 → bn ≠ 0 → tn ≠ bn →
      bottomCandidate st bn = some bt → topCandidate st tn = some tt →
      bt < tt →
      (connectPins st).Y bn = insertS bt (st.Y bn) ∧
      (connectPins st).Y tn = insertS tt (st.Y tn) ∧
      (∀ n, n ≠ bn → n ≠ tn → (connectPins st).Y n = st.Y n) ∧
      (connectPins st).G =
        addEdgeL (addEdgeL st.G (st.currentColumn, 0) (st.currentColumn, bt) bn)
          (st.currentColumn, min tt (st.channelWidth + 1))
          (st.currentColumn, max tt (st.channelWidth + 1)) tn) ∧
    (∀ bt tt, tn ≠ 0 → bn ≠ 0 → tn ≠ bn →
      bottomCandidate st bn = some bt → topCandidate st tn = some tt →
      tt ≤ bt → bt < st.channelWidth + 1 - tt →
      (connectPins st).Y bn = insertS bt (st.Y bn) ∧
      (∀ n, n ≠ bn → (connectPins st).Y n = st.Y n) ∧
      (connectPins st).G =
        addEdgeL st.G (st.currentColumn, 0) (st.currentColumn, bt) bn) ∧
    (∀ bt tt, tn ≠ 0 → bn ≠ 0 → tn ≠ bn →
      bottomCandidate st bn = some bt → topCandidate st tn = some tt →
      tt ≤ bt → ¬ bt < st.channelWidth + 1 - tt →
      (connectPins st).Y tn = insertS tt (st.Y tn) ∧
      (∀ n, n ≠ tn → (connectPins st).Y n = st.Y n) ∧
      (connectPins st).G =
        addEdgeL st.G (st.currentColumn, min tt (st.channelWidth + 1))
          (st.currentColumn, max tt (st.channelWidth + 1)) tn) ∧
    (∀ bt, tn ≠ 0 → bn ≠ 0 → tn ≠ bn →
      bottomCandidate st bn = some bt → topCandidate st tn = none →
      (connectPins st).Y bn = insertS bt (st.Y bn) ∧
      (∀ n, n ≠ bn → (connectPins st).Y n = st.Y n) ∧
      (connectPins st).G =
        addEdgeL st.G (st.currentColumn, 0) (st.currentColumn, bt) bn) ∧
    (∀ tt, tn ≠ 0 → bn ≠ 0 → tn ≠ bn →
      bottomCandidate st bn = none → topCandidate st tn = some tt →
      (connectPins st).Y tn = insertS tt (st.Y tn) ∧
      (∀ n, n ≠ tn → (connectPins st).Y n = st.Y n) ∧
      (connectPins st).G =
        addEdgeL st.G (st.currentColumn, min tt (st.channelWidth + 1))
          (st.currentColumn, max tt (st.channelWidth + 1)) tn) := by
  subst htn
  subst hbn
  refine ⟨?_, ?_, ?_, ?_, ?_, ?_, ?_, ?_, ?_, ?_⟩
  · intro m hm
    obtain ⟨hmem, hmin⟩ := minS_eq_some_iff.mp hm
    refine ⟨hmem, hmin, ?_⟩
    intro hempty
    rw [hempty] at hmem
    rcases mem_unionS.mp hmem with h | h
    · exact h
    · exact absurd h (by simp)
  · intro m hm
    obtain ⟨hmem, hmax⟩ := maxS_eq_some_iff.mp hm
    refine ⟨hmem, hmax, ?_⟩
    intro hempty
    rw [hempty] at hmem
    rcases mem_unionS.mp hmem with h | h
    · exact h
    · exact absurd h (by simp)
  · intro m htz hbz hm
    unfold connectPins
    simp only [htz, hbz, hm, ne_eq, not_true_eq_false, false_and, if_false, ite_false,
      not_false_eq_true, if_pos, ite_true, if_true]
    refine ⟨?_, ?_, ?_⟩
    · simp [addVerticalWire, updY]
    · intro n hn
      simp only [List.getD_eq_getElem?_getD] at hn
      simp [addVerticalWire, updY, hn]
    · simp [addVerticalWire, updY]
  · intro m ht hbz hm
    unfold connectPins
    simp only [ht, hbz, hm, ne_eq, not_true_eq_false, false_and, and_false, if_false,
      ite_false, not_false_eq_true, if_pos, ite_true, if_true]
    refine ⟨?_, ?_, ?_⟩
    · simp [addVerticalWire, updY]
    · intro n hn
      simp only [List.getD_eq_getElem?_getD] at hn
      simp [addVerticalWire, updY, hn]
    · simp [addVerticalWire, updY]
  · intro bt tt ht hb heq hrest hbc htc
    have hg : ¬ (st.T.getD st.currentColumn 0 ≠ 0 ∧ st.B.getD st.currentColumn 0 ≠ 0 ∧
        st.T.getD st.currentColumn 0 = st.B.getD st.currentColumn 0 ∧
        (occupiedD st).length = st.channelWidth ∧
        st.Y (st.T.getD st.currentColumn 0) = [] ∧
        nextPin st (st.T.getD st.currentColumn 0) none = none) :=
      fun hgg => hrest ⟨hgg.2.2.2.1, hgg.2.2.2.2.1, hgg.2.2.2.2.2⟩
    unfold connectPins
    simp only [if_neg hg]
    simp only [ht, hb, hbc, htc, ne_eq, not_false_eq_true, ite_true, if_pos, if_true]
    rw [if_pos heq]
    have heq' : st.T[st.currentColumn]?.getD 0 = st.B[st.currentColumn]?.getD 0 := by
      simpa [List.getD_eq_getElem?_getD] using heq
    refine ⟨?_, ?_, ?_⟩
    · simp [addVerticalWire, updY, heq']
    · intro n hn
      rw [heq] at hn
      simp only [List.getD_eq_getElem?_getD] at hn
      simp [addVerticalWire, updY, heq', hn]
    · simp [addVerticalWire, updY, heq']
  · intro bt tt ht hb hne hbc htc hlt
    have hg : ¬ (st.T.getD st.currentColumn 0 ≠ 0 ∧ st.B.getD st.currentColumn 0 ≠ 0 ∧
        st.T.getD st.currentColumn 0 = st.B.getD st.currentColumn 0 ∧
        (occupiedD st).length = st.channelWidth ∧
        st.Y (st.T.getD st.currentColumn 0) = [] ∧
        nextPin st (st.T.getD st.currentColumn 0) none = none) :=
      fun hgg => hne hgg.2.2.1
    unfold connectPins
    simp only [if_neg hg]
    simp only [ht, hb, hbc, htc, ne_eq, not_false_eq_true, ite_true, if_pos, if_true]
    rw [if_neg hne, if_pos hlt]
    have hne' : st.T[st.currentColumn]?.getD 0 ≠ st.B[st.currentColumn]?.getD 0 := by
      simpa [List.getD_eq_getElem?_getD] using hne
    refine ⟨?_, ?_, ?_, ?_⟩
    · simp [addVerticalWire, updY, Ne.symm hne']
    · simp [addVerticalWire, updY, hne']
    · intro n hnb hnt
      simp only [List.getD_eq_getElem?_getD] at hnb hnt
      simp [addVerticalWire, updY, hne', hnb, hnt]
    · simp [addVerticalWire, updY]
  · intro bt tt ht hb hne hbc htc hle hlt
    have hg : ¬ (st.T.getD st.currentColumn 0 ≠ 0 ∧ st.B.getD st.currentColumn 0 ≠ 0 ∧
        st.T.getD st.currentColumn 0 = st.B.getD st.currentColumn 0 ∧
        (occupiedD st).length = st.channelWidth ∧
        st.Y (st.T.getD st.currentColumn 0) = [] ∧
        nextPin st (st.T.getD st.currentColumn 0) none = none) :=
      fun hgg => hne hgg.2.2.1
    unfold connectPins
    simp only [if_neg hg]
    simp only [ht, hb, hbc, htc, ne_eq, not_false_eq_true, ite_true, if_pos, if_true]
    rw [if_neg hne, if_neg (by omega), if_pos hlt]
    refine ⟨?_, ?_, ?_⟩
    · simp [addVerticalWire, updY]
    · intro n hn
      simp only [List.getD_eq_getElem?_getD] at hn
      simp [addVerticalWire, updY, hn]
    · simp [addVerticalWire, updY]
  · intro bt tt ht hb hne hbc htc hle hlt
    have hg : ¬ (st.T.getD st.currentColumn 0 ≠ 0 ∧ st.B.getD st.currentColumn 0 ≠ 0 ∧
        st.T.getD st.currentColumn 0 = st.B.getD st.currentColumn 0 ∧
        (occupiedD st).length = st.channelWidth ∧
        st.Y (st.T.getD st.currentColumn 0) = [] ∧
        nextPin st (st.T.getD st.currentColumn 0) none = none) :=
      fun hgg => hne hgg.2.2.1
    unfold connectPins
    simp only [if_neg hg]
    simp only [ht, hb, hbc, htc, ne_eq, not_false_eq_true, ite_true, if_pos, if_true]
    rw [if_neg hne, if_neg (by omega), if_neg hlt]
    refine ⟨?_, ?_, ?_⟩
    · simp [addVerticalWire, updY]
    · intro n hn
      simp only [List.getD_eq_getElem?_getD] at hn
      simp [addVerticalWire, updY, hn]
    · simp [addVerticalWire, updY]
  · intro bt ht hb hne hbc htc
    have hg : ¬ (st.T.getD st.currentColumn 0 ≠ 0 ∧ st.B.getD st.currentColumn 0 ≠ 0 ∧
        st.T.getD st.currentColumn 0 = st.B.getD st.currentColumn 0 ∧
        (occupiedD st).length = st.channelWidth ∧
        st.Y (st.T.getD st.currentColumn 0) = [] ∧
        nextPin st (st.T.getD st.currentColumn 0) none = none) :=
      fun hgg => hne hgg.2.2.1
    unfold connectPins
    simp only [if_neg hg]
    simp only [ht, hb, hbc, htc, ne_eq, not_false_eq_true, ite_true, if_pos, if_true]
    refine ⟨?_, ?_, ?_⟩
    · simp [addVerticalWire, updY]
    · intro n hn
      simp only [List.getD_eq_getElem?_getD] at hn
      simp [addVerticalWire, updY, hn]
    · simp [addVerticalWire, updY]
  · intro tt ht hb hne hbc htc
    have hg : ¬ (st.T.getD st.currentColumn 0 ≠ 0 ∧ st.B.getD st.currentColumn 0 ≠ 0 ∧
        st.T.getD st.currentColumn 0 = st.B.getD st.currentColumn 0 ∧
        (occupiedD st).length = st.channelWidth ∧
        st.Y (st.T.getD st.currentColumn 0) = [] ∧
        nextPin st (st.T.getD st.currentColumn 0) none = none) :=
      fun hgg => hne hgg.2.2.1
    unfold connectPins
    simp only [if_neg hg]
    simp only [ht, hb, hbc, htc, ne_eq, not_false_eq_true, ite_true, if_pos, if_true]
    refine ⟨?_, ?_, ?_⟩
    · simp [addVerticalWire, updY]
    · intro n hn
      simp only [List.getD_eq_getElem?_getD] at hn
      simp [addVerticalWire, updY, hn]
    · simp [addVerticalWire, updY]

/-- Witness for C4: concrete runs of every branch — the bottom pin alone
takes the minimum of the union and the top pin alone the maximum (even
when the net owns a farther track), both pins of one net, both pins of
different nets without overlap, both overlap resolutions, and the two
one-sided no-candidate cases. -/
theorem c4_witness :
    ((1 : ℕ) ∈ unionS (freeD pinReuseState) (pinReuseState.Y 1) ∧
      (∀ t ∈ unionS (freeD pinReuseState) (pinReuseState.Y 1), 1 ≤ t) ∧
      (pinReuseState.Y 1 = [] → (1 : ℕ) ∈ freeD pinReuseState)) ∧
    ((5 : ℕ) ∈ unionS (freeD pinTopState) (pinTopState.Y 2) ∧
      (∀ t ∈ unionS (freeD pinTopState) (pinTopState.Y 2), t ≤ 5) ∧
      (pinTopState.Y 2 = [] → (5 : ℕ) ∈ freeD pinTopState)) ∧
    ((connectPins pinFreshState).Y 1 = insertS 1 (pinFreshState.Y 1) ∧
      (∀ n, n ≠ 1 → (connectPins pinFreshState).Y n = pinFreshState.Y n) ∧
      (connectPins pinFreshState).G = addEdgeL pinFreshState.G (0, 0) (0, 1) 1) ∧
    ((connectPins pinTopState).Y 2 = insertS 5 (pinTopState.Y 2) ∧
      (∀ n, n ≠ 2 → (connectPins pinTopState).Y n = pinTopState.Y n) ∧
      (connectPins pinTopState).G =
        addEdgeL pinTopState.G (0, min 5 6) (0, max 5 6) 2) ∧
    ((connectPins pinSameState).Y 1 = insertS 5 (insertS 1 (pinSameState.Y 1)) ∧
      (∀ n, n ≠ 1 → (connectPins pinSameState).Y n = pinSameState.Y n) ∧
      (connectPins pinSameState).G =
        addEdgeL (addEdgeL pinSameState.G (0, 0) (0, 1) 1) (0, min 5 6) (0, max 5 6) 1) ∧
    ((connectPins pinBothState).Y 1 = insertS 1 (pinBothState.Y 1) ∧
      (connectPins pinBothState).Y 2 = insertS 5 (pinBothState.Y 2) ∧
      (∀ n, n ≠ 1 → n ≠ 2 → (connectPins pinBothState).Y n = pinBothState.Y n) ∧
      (connectPins pinBothState).G =
        addEdgeL (addEdgeL pinBothState.G (0, 0) (0, 1) 1) (0, min 5 6) (0, max 5 6) 2) ∧
    ((connectPins pinLowState).Y 1 = insertS 1 (pinLowState.Y 1) ∧
      (∀ n, n ≠ 1 → (connectPins pinLowState).Y n = pinLowState.Y n) ∧
      (connectPins pinLowState).G = addEdgeL pinLowState.G (0, 0) (0, 1) 1) ∧
    ((connectPins pinOverlapState).Y 2 = insertS 1 (pinOverlapState.Y 2) ∧
      (∀ n, n ≠ 2 → (connectPins pinOverlapState).Y n = pinOverlapState.Y n) ∧
      (connectPins pinOverlapState).G =
        addEdgeL pinOverlapState.G (0, min 1 2) (0, max 1 2) 2) ∧
    ((connectPins pinNoTopState).Y 1 = insertS 1 (pinNoTopState.Y 1) ∧
      (∀ n, n ≠ 1 → (connectPins pinNoTopState).Y n = pinNoTopState.Y n) ∧
      (connectPins pinNoTopState).G = addEdgeL pinNoTopState.G (0, 0) (0, 1) 1) ∧
    ((connectPins pinNoBottomState).Y 2 = insertS 1 (pinNoBottomState.Y 2) ∧
      (∀ n, n ≠ 2 → (connectPins pinNoBottomState).Y n = pinNoBottomState.Y n) ∧
      (connectPins pinNoBottomState).G =
        addEdgeL pinNoBottomState.G (0, min 1 2) (0, max 1 2) 2) :=
  ⟨(c4_connectPins_nearest pinReuseState 0 1 (by decide) (by decide)).1 1 (by decide),
   (c4_connectPins_nearest pinTopState 2 0 (by decide) (by decide)).2.1 5 (by decide),
   (c4_connectPins_nearest pinFreshState 0 1 (by decide) (by decide)).2.2.1 1 rfl
     (by decide) (by decide),
   (c4_connectPins_nearest pinTopState 2 0 (by decide) (by decide)).2.2.2.1 5
     (by decide) rfl (by decide),
   (c4_connectPins_nearest pinSameState 1 1 (by decide) (by decide)).2.2.2.2.1 1 5
     (by decide) (by decide) rfl (by decide) (by decide) (by decide),
   (c4_connectPins_nearest pinBothState 2 1 (by decide) (by decide)).2.2.2.2.2.1 1 5
     (by decide) (by decide) (by decide) (by decide) (by decide) (by decide),
   (c4_connectPins_nearest pinLowState 2 1 (by decide) (by decide)).2.2.2.2.2.2.1 1 1
     (by decide) (by decide) (by decide) (by decide) (by decide) (by decide) (by decide),
   (c4_connectPins_nearest pinOverlapState 2 1 (by decide) (by decide)).2.2.2.2.2.2.2.1 1 1
     (by decide) (by decide) (by decide) (by decide) (by decide) (by decide) (by decide),
   (c4_connectPins_nearest pinNoTopState 2 1 (by decide) (by decide)).2.2.2.2.2.2.2.2.1 1
     (by decide) (by decide) (by decide) (by decide) (by decide),
   (c4_connectPins_nearest pinNoBottomState 2 1 (by decide) (by decide)).2.2.2.2.2.2.2.2.2 1
     (by decide) (by decide) (by decide) (by decide) (by decide)⟩

end RF83

namespace RF83

/-! ## C5: the first score component -/

theorem mem_groupTracks {t : ℕ} {g : List (ℕ × ℕ)} :
    t ∈ groupTracks g ↔ ∃ p ∈ g, t = p.1 ∨ t = p.2 := by
  unfold groupTracks
  rw [List.mem_flatMap]
  constructor
  · rintro ⟨p, hp, hm⟩
    rcases List.mem_cons.mp hm with h | h
    · exact ⟨p, hp, Or.inl h⟩
    · simp only [List.mem_singleton] at h
      exact ⟨p, hp, Or.inr h⟩
  · rintro ⟨p, hp, h | h⟩
    · exact ⟨p, hp, by simp [h]⟩
    · exact ⟨p, hp, by simp [h]⟩

theorem mem_splitNetsList {st : RState} {n : ℕ} :
    n ∈ splitNetsList st ↔ n ∈ st.nets ∧ 1 < (st.Y n).length := by
  unfold splitNetsList
  rw [List.mem_filter]
  simp

theorem groupClosesNet_iff {st : RState} {order : List ℕ} {g : List (ℕ × ℕ)} :
    groupClosesNet st order g = true ↔
      ∃ n ∈ order, nextPin st n none = none ∧ 1 < (st.Y n).length ∧
        ∀ t ∈ st.Y n, t ∈ groupTracks g := by
  unfold groupClosesNet
  rw [List.any_eq_true]
  constructor
  · rintro ⟨n, hn, hall⟩
    rw [List.mem_filter] at hn
    obtain ⟨hn1, hn2⟩ := hn
    simp only [decide_eq_true_eq] at hn2
    rw [List.all_eq_true] at hall
    refine ⟨n, hn1, hn2.1, hn2.2, ?_⟩
    intro t ht
    simpa using hall t ht
  · rintro ⟨n, hn, h1, h2, h3⟩
    refine ⟨n, ?_, ?_⟩
    · rw [List.mem_filter]
      exact ⟨hn, by simp [h1, h2]⟩
    · rw [List.all_eq_true]
      intro t ht
      simpa using h3 t ht

/-- Counting lemma: when a predicate on the groups agrees pointwise with
a predicate on the net/group pairs, the two filters have the same
length. -/
theorem filter_zip_length {α β : Type} (P : β → Bool) (Q : α × β → Bool) :
    ∀ (sn : List α) (pat : List β), pat.length = sn.length →
      (∀ np ∈ sn.zip pat, P np.2 = Q np) →
      (pat.filter P).length = ((sn.zip pat).filter Q).length := by
  intro sn
  induction sn with
  | nil =>
    intro pat h _
    cases pat with
    | nil => rfl
    | cons g pat => simp at h
  | cons n sn ih =>
    intro pat h hpq
    cases pat with
    | nil => simp at h
    | cons g pat =>
      have h0 := hpq (n, g) (by simp)
      have hrec := ih pat (by simpa using h)
        (fun np hnp => hpq np (by simp [List.zip_cons_cons, hnp]))
      simp only [List.zip_cons_cons, List.filter_cons]
      rw [← h0]
      cases hP : P g <;> simp [hrec]

/-- C5.  The first component of a jog-pattern score equals the number of
jogs in the pattern plus one for every net whose jogs in the pattern are
contiguous, cover the net's whole current track set, and which has no
pin remaining in the channel beyond the current column — provided the
pattern's groups are aligned with the sorted split nets (one group per
net, each jog between tracks of its net) and track ownership is
exclusive, both of which hold for every pattern `generate_jog_patterns`
produces. -/
theorem c5_tracksFreed (st : RState) (pattern : List (List (ℕ × ℕ)))
    (hlen : pattern.length = (splitNetsList st).length)
    (hsub : ∀ np ∈ (splitNetsList st).zip pattern, ∀ p ∈ np.2,
        p.1 ∈ st.Y np.1 ∧ p.2 ∈ st.Y np.1)
    (hdisj : ∀ m ∈ st.nets, ∀ n ∈ st.nets, m ≠ n →
        ∀ t ∈ st.Y m, ¬ t ∈ st.Y n) :
    (evaluateJogs st pattern).1 =
      pattern.flatten.length + specFinishedBonus st pattern := by
  unfold evaluateJogs evaluateJogsWith specFinishedBonus
  dsimp only
  apply congrArg (HAdd.hAdd pattern.flatten.length)
  apply filter_zip_length _ _ _ _ hlen
  intro np hnp
  obtain ⟨hn_mem, hg_mem⟩ := List.of_mem_zip hnp
  obtain ⟨hn_nets, hn_split⟩ := mem_splitNetsList.mp hn_mem
  have hsubnp := hsub np hnp
  refine Bool.eq_iff_iff.mpr ?_
  simp only [decide_eq_true_eq, List.all_eq_true, decide_eq_true_eq]
  constructor
  · rintro ⟨hne, hcont, hclose⟩
    obtain ⟨n2, hn2_mem, hn2_pin, hn2_split, hn2_cov⟩ := groupClosesNet_iff.mp hclose
    have hn2eq : n2 = np.1 := by
      by_contra hne2
      obtain ⟨t, ht⟩ := List.exists_mem_of_length_pos (by omega : 0 < (st.Y n2).length)
      have htg : t ∈ groupTracks np.2 := hn2_cov t ht
      obtain ⟨p, hp, hor⟩ := mem_groupTracks.mp htg
      have hpy := hsubnp p hp
      have htY : t ∈ st.Y np.1 := by
        rcases hor with h | h
        · rw [h]; exact hpy.1
        · rw [h]; exact hpy.2
      exact hdisj n2 hn2_mem np.1 hn_nets hne2 t ht htY
    subst hn2eq
    refine ⟨hcont, ?_, hn2_pin⟩
    intro t ht
    simpa using hn2_cov t ht
  · rintro ⟨hcont, hcov, hpin⟩
    obtain ⟨t, ht⟩ := List.exists_mem_of_length_pos
      (by omega : 0 < (st.Y np.1).length)
    have htg : t ∈ groupTracks np.2 := by simpa using hcov t ht
    refine ⟨?_, hcont, ?_⟩
    · intro hnil
      rw [hnil] at htg
      exact absurd htg (by simp [groupTracks])
    · exact groupClosesNet_iff.mpr
        ⟨np.1, hn_nets, hpin, hn_split, fun t2 ht2 => by simpa using hcov t2 ht2⟩

/-- Witness for C5: on `evalState` with `evalPattern`, two jogs are laid
and net 1 is finished, so the first score component is 2 + 1 = 3. -/
theorem c5_witness :
    (evaluateJogs evalState evalPattern).1 =
      evalPattern.flatten.length + specFinishedBonus evalState evalPattern :=
  c5_tracksFreed evalState evalPattern (by decide) (by decide) (by decide)

end RF83

namespace RF83

/-! ## C7: scouting and split-net compression -/

theorem scoutScan_asc (st : RState) (net : ℕ) :
    ∀ (k a m : ℕ), m < a →
      (scoutScan st net (List.range' a k) m = m ∨
        (a ≤ scoutScan st net (List.range' a k) m ∧
          scoutScan st net (List.range' a k) m < a + k)) ∧
      (∀ j, a ≤ j → j ≤ scoutScan st net (List.range' a k) m →
        vertBlocked st j = false) ∧
      (scoutScan st net (List.range' a k) m ≠ m →
        ¬ (scoutScan st net (List.range' a k) m ∈ occupiedD st ∧
           ¬ scoutScan st net (List.range' a k) m ∈ st.Y net)) ∧
      (∀ i, a ≤ i → i < a + k → scoutScan st net (List.range' a k) m < i →
        (∃ j, a ≤ j ∧ j ≤ i ∧ vertBlocked st j = true) ∨
        (i ∈ occupiedD st ∧ ¬ i ∈ st.Y net)) := by
  intro k
  induction k with
  | zero =>
    intro a m hm
    have h0 : scoutScan st net (List.range' a 0) m = m := rfl
    rw [h0]
    refine ⟨Or.inl rfl, ?_, ?_, ?_⟩
    · intro j hj1 hj2
      omega
    · intro h
      exact absurd rfl h
    · intro i h1 h2
      omega
  | succ k ih =>
    intro a m hm
    rw [List.range'_succ]
    by_cases hb : vertBlocked st a
    · have hstep : scoutScan st net (a :: List.range' (a + 1) k) m = m := by
        simp [scoutScan, hb]
      rw [hstep]
      refine ⟨Or.inl rfl, ?_, ?_, ?_⟩
      · intro j hj1 hj2
        omega
      · intro h
        exact absurd rfl h
      · intro i h1 h2 h3
        exact Or.inl ⟨a, le_refl a, h1, hb⟩
    · by_cases hs : a ∈ occupiedD st ∧ ¬ a ∈ st.Y net
      · have hstep : scoutScan st net (a :: List.range' (a + 1) k) m =
            scoutScan st net (List.range' (a + 1) k) m := by
          simp [scoutScan, hb, hs]
        rw [hstep]
        obtain ⟨iha, ihb, ihc, ihd⟩ := ih (a + 1) m (by omega)
        refine ⟨?_, ?_, ihc, ?_⟩
        · rcases iha with h | h
          · exact Or.inl h
          · exact Or.inr ⟨by omega, by omega⟩
        · intro j hj1 hj2
          rcases Nat.eq_or_lt_of_le hj1 with rfl | hj1
          · exact Bool.eq_false_iff.mpr hb
          · exact ihb j (by omega) hj2
        · intro i h1 h2 h3
          rcases Nat.eq_or_lt_of_le h1 with rfl | h1
          · exact Or.inr hs
          · rcases ihd i (by omega) (by omega) h3 with ⟨j, hj1, hj2, hj3⟩ | h
            · exact Or.inl ⟨j, by omega, hj2, hj3⟩
            · exact Or.inr h
      · have hstep : scoutScan st net (a :: List.range' (a + 1) k) m =
            scoutScan st net (List.range' (a + 1) k) a := by
          simp only [scoutScan]
          rw [if_neg (by simp [hb]), if_neg hs]
        rw [hstep]
        obtain ⟨iha, ihb, ihc, ihd⟩ := ih (a + 1) a (by omega)
        refine ⟨?_, ?_, ?_, ?_⟩
        · rcases iha with h | h
          · exact Or.inr ⟨by omega, by omega⟩
          · exact Or.inr ⟨by omega, by omega⟩
        · intro j hj1 hj2
          rcases Nat.eq_or_lt_of_le hj1 with rfl | hj1
          · exact Bool.eq_false_iff.mpr hb
          · exact ihb j (by omega) hj2
        · intro _
          by_cases he : scoutScan st net (List.range' (a + 1) k) a = a
          · rw [he]
            exact hs
          · exact ihc he
        · intro i h1 h2 h3
          rcases Nat.eq_or_lt_of_le h1 with rfl | h1
          · rcases iha with h | h <;> omega
          · rcases ihd i (by omega) (by omega) h3 with ⟨j, hj1, hj2, hj3⟩ | h
            · exact Or.inl ⟨j, by omega, hj2, hj3⟩
            · exact Or.inr h

theorem scoutScan_desc (st : RState) (net : ℕ) :
    ∀ (k g m : ℕ), g + k ≤ m →
      (∀ j, g + k ≤ j → j < m → vertBlocked st j = false) →
      (scoutScan st net (List.range' g k).reverse m = m ∨
        (g ≤ scoutScan st net (List.range' g k).reverse m ∧
          scoutScan st net (List.range' g k).reverse m < g + k)) ∧
      (∀ j, scoutScan st net (List.range' g k).reverse m ≤ j → j < m →
        vertBlocked st j = false) ∧
      (scoutScan st net (List.range' g k).reverse m ≠ m →
        ¬ (scoutScan st net (List.range' g k).reverse m ∈ occupiedD st ∧
           ¬ scoutScan st net (List.range' g k).reverse m ∈ st.Y net)) ∧
      (∀ i, g ≤ i → i < g + k → i < scoutScan st net (List.range' g k).reverse m →
        (∃ j, i ≤ j ∧ j < m ∧ vertBlocked st j = true) ∨
        (i ∈ occupiedD st ∧ ¬ i ∈ st.Y net)) := by
  intro k
  induction k with
  | zero =>
    intro g m hm1 hm2
    have h0 : scoutScan st net (List.range' g 0).reverse m = m := rfl
    rw [h0]
    refine ⟨Or.inl rfl, ?_, ?_, ?_⟩
    · intro j hj1 hj2
      exact hm2 j (by omega) hj2
    · intro h
      exact absurd rfl h
    · intro i h1 h2
      omega
  | succ k ih =>
    intro g m hm1 hm2
    have hrev : (List.range' g (k + 1)).reverse =
        (g + k) :: (List.range' g k).reverse := by
      rw [List.range'_concat]
      simp
    rw [hrev]
    by_cases hb : vertBlocked st (g + k)
    · have hstep : scoutScan st net ((g + k) :: (List.range' g k).reverse) m = m := by
        simp [scoutScan, hb]
      rw [hstep]
      refine ⟨Or.inl rfl, ?_, ?_, ?_⟩
      · intro j hj1 hj2
        omega
      · intro h
        exact absurd rfl h
      · intro i h1 h2 h3
        exact Or.inl ⟨g + k, by omega, by omega, hb⟩
    · by_cases hs : g + k ∈ occupiedD st ∧ ¬ g + k ∈ st.Y net
      · have hstep : scoutScan st net ((g + k) :: (List.range' g k).reverse) m =
            scoutScan st net (List.range' g k).reverse m := by
          simp [scoutScan, hb, hs]
        rw [hstep]
        obtain ⟨iha, ihb, ihc, ihd⟩ := ih g m (by omega) (by
          intro j hj1 hj2
          rcases Nat.eq_or_lt_of_le hj1 with rfl | hj1
          · exact Bool.eq_false_iff.mpr hb
          · exact hm2 j (by omega) hj2)
        refine ⟨?_, ihb, ihc, ?_⟩
        · rcases iha with h | h
          · exact Or.inl h
          · exact Or.inr ⟨by omega, by omega⟩
        · intro i h1 h2 h3
          rcases Nat.lt_or_ge i (g + k) with h4 | h4
          · exact ihd i (by omega) (by omega) h3
          · have hik : i = g + k := by omega
            subst hik
            rcases iha with h | h
            · exact Or.inr hs
            · omega
      · have hstep : scoutScan st net ((g + k) :: (List.range' g k).reverse) m =
            scoutScan st net (List.range' g k).reverse (g + k) := by
          simp only [scoutScan]
          rw [if_neg (by simp [hb]), if_neg hs]
        rw [hstep]
        obtain ⟨iha, ihb, ihc, ihd⟩ := ih g (g + k) (by omega) (by
          intro j hj1 hj2
          omega)
        refine ⟨?_, ?_, ?_, ?_⟩
        · rcases iha with h | h
          · exact Or.inr ⟨by omega, by omega⟩
          · exact Or.inr ⟨by omega, by omega⟩
        · intro j hj1 hj2
          rcases Nat.lt_or_ge j (g + k) with h4 | h4
          · exact ihb j hj1 h4
          · rcases Nat.eq_or_lt_of_le h4 with rfl | h4
            · exact Bool.eq_false_iff.mpr hb
            · exact hm2 j (by omega) hj2
        · intro hne
          by_cases he : scoutScan st net (List.range' g k).reverse (g + k) = g + k
          · rw [he]
            exact hs
          · exact ihc he
        · intro i h1 h2 h3
          rcases Nat.lt_or_ge i (g + k) with h4 | h4
          · rcases ihd i (by omega) (by omega) h3 with ⟨j, hj1, hj2, hj3⟩ | h
            · exact Or.inl ⟨j, hj1, by omega, hj3⟩
            · exact Or.inr h
          · have hik : i = g + k := by omega
            subst hik
            rcases iha with h | h <;> omega

end RF83

namespace RF83

/-- C7, amended.  When `scout` scans a track toward a goal it passes
through free cells and cells horizontally occupied by the same net,
stops immediately before any vertical wire of the current column (in
particular one belonging to a different net), and may jump over but never
lands on a cell horizontally occupied by a different net; every cell
beyond the returned position is unreachable under those rules.  In
split-net compression a move is only *attempted* when the first scouted
distance reaches `minimum_jog_length` — in particular, when both scouted
distances fall short the track sets and the graph are untouched — but a
committed jog re-scans and may achieve a shorter distance (see the
counterexample). -/
theorem c7_scout_and_compress (st : RState) :
    (∀ net track goal, track < goal →
      (track ≤ scout st net track goal ∧ scout st net track goal ≤ goal) ∧
      (∀ j, track < j → j ≤ scout st net track goal →
        vertBlocked st j = false) ∧
      (scout st net track goal ≠ track →
        ¬ (scout st net track goal ∈ occupiedD st ∧
           ¬ scout st net track goal ∈ st.Y net)) ∧
      (∀ i, scout st net track goal < i → i ≤ goal →
        (∃ j, track < j ∧ j ≤ i ∧ vertBlocked st j = true) ∨
        (i ∈ occupiedD st ∧ ¬ i ∈ st.Y net))) ∧
    (∀ net track goal, goal < track →
      (goal ≤ scout st net track goal ∧ scout st net track goal ≤ track) ∧
      (∀ j, scout st net track goal ≤ j → j < track →
        vertBlocked st j = false) ∧
      (scout st net track goal ≠ track →
        ¬ (scout st net track goal ∈ occupiedD st ∧
           ¬ scout st net track goal ∈ st.Y net)) ∧
      (∀ i, goal ≤ i → i < scout st net track goal →
        (∃ j, i ≤ j ∧ j < track ∧ vertBlocked st j = true) ∨
        (i ∈ occupiedD st ∧ ¬ i ∈ st.Y net))) ∧
    (∀ (net t0 t1 hL hS : ℕ) (rest rest2 : List ℕ),
      sortAsc (st.Y net) = t0 :: t1 :: rest →
      (t0 :: t1 :: rest).reverse = hL :: hS :: rest2 →
      natDist (scout st net hL hS) hL < st.minimumJogLength →
      natDist (scout st net t0 t1) t0 < st.minimumJogLength →
      compressSplitNet st net = st) := by
  refine ⟨?_, ?_, ?_⟩
  · intro net track goal h
    have hs : scout st net track goal =
        scoutScan st net (List.range' (track + 1) (goal - track)) track := by
      unfold scout
      rw [if_pos h]
    rw [hs]
    obtain ⟨pa, pb, pc, pd⟩ :=
      scoutScan_asc st net (goal - track) (track + 1) track (by omega)
    refine ⟨?_, ?_, ?_, ?_⟩
    · rcases pa with h2 | h2 <;> omega
    · intro j hj1 hj2
      exact pb j (by omega) hj2
    · exact pc
    · intro i h1 h2
      rcases pd i (by omega) (by omega) h1 with ⟨j, hj1, hj2, hj3⟩ | h3
      · exact Or.inl ⟨j, by omega, hj2, hj3⟩
      · exact Or.inr h3
  · intro net track goal h
    have hs : scout st net track goal =
        scoutScan st net (List.range' goal (track - goal)).reverse track := by
      unfold scout
      rw [if_neg (by omega), if_pos h]
    rw [hs]
    obtain ⟨pa, pb, pc, pd⟩ :=
      scoutScan_desc st net (track - goal) goal track (by omega)
        (by intro j hj1 hj2; omega)
    refine ⟨?_, pb, pc, ?_⟩
    · rcases pa with h2 | h2 <;> omega
    · intro i h1 h2
      have hrle : scoutScan st net (List.range' goal (track - goal)).reverse track ≤ track := by
        rcases pa with h3 | h3 <;> omega
      exact pd i (by omega) (by omega) h2
  · intro net t0 t1 hL hS rest rest2 hsort hrev hhigh hlow
    unfold compressSplitNet
    rw [hsort]
    dsimp only
    rw [hrev]
    dsimp only
    rw [if_neg (by omega), if_neg (by omega)]

/-- The state of the C7 counterexample: net 1 split over tracks 1, 4 and
8 of a width-8 channel with `minimum_jog_length = 3` and no wiring yet at
the current column. -/
def compressOverrunState : RState :=
  { T := [1, 0, 0, 0, 0], B := [1, 0, 0, 0, 0], channelLength := 5,
    initialChannelWidth := 8, channelWidth := 8, currentColumn := 1,
    minimumJogLength := 3, steadyNetConstant := 10,
    nets := [1], Y := fun n => if n = 1 then [1, 4, 8] else [], G := [] }

/-- C7, counterexample.  The claim says a move is committed only when
the achieved distance is at least `minimum_jog_length`.  On
`compressOverrunState` (`minimum_jog_length = 3`), compression first
commits the high jog 8→4; the low move was scouted to distance 3 (1→4),
but the commit re-scans, now stops under the fresh vertical wire at
track 3, and still commits a jog of achieved length 2 < 3. -/
theorem c7_counterexample :
    ((compressSplitNet compressOverrunState 1).G.contains
      ⟨(1, 1), (1, 3), 1⟩) = true ∧
    (compressSplitNet compressOverrunState 1).Y 1 = [3, 4] ∧
    compressOverrunState.minimumJogLength = 3 := by
  exact ⟨by decide, by decide, rfl⟩

/-- A state where both compression scouts fall short of
`minimum_jog_length = 5`. -/
def shortJogState : RState :=
  { T := [0], B := [0], channelLength := 1, initialChannelWidth := 3,
    channelWidth := 3, currentColumn := 0, minimumJogLength := 5,
    steadyNetConstant := 10,
    nets := [1], Y := fun n => if n = 1 then [1, 3] else [], G := [] }

/-- Witness for C7: a concrete upward scout obeys the bounds, and on
`shortJogState` (both scouted distances 2 < 5) compression leaves the
state untouched. -/
theorem c7_witness :
    (1 ≤ scout compressOverrunState 1 1 4 ∧
      scout compressOverrunState 1 1 4 ≤ 4) ∧
    compressSplitNet shortJogState 1 = shortJogState := by
  constructor
  · exact ((c7_scout_and_compress compressOverrunState).1 1 1 4 (by decide)).1
  · exact (c7_scout_and_compress shortJogState).2.2 1 1 3 3 1 [] []
      (by decide) (by decide) (by decide) (by decide)

end RF83

namespace RF83

/-! ## C10: termination of the column loop -/

/-- Folding with a step that fixes the current column and channel length
fixes both. -/
theorem foldl_frame {α : Type} (step : RState → α → RState)
    (hstep : ∀ s x, (step s x).currentColumn = s.currentColumn ∧
      (step s x).channelLength = s.channelLength) :
    ∀ (l : List α) (s : RState),
      (l.foldl step s).currentColumn = s.currentColumn ∧
      (l.foldl step s).channelLength = s.channelLength := by
  intro l
  induction l with
  | nil => intro s; exact ⟨rfl, rfl⟩
  | cons x xs ih =>
    intro s
    have h1 := hstep s x
    have h2 := ih (step s x)
    exact ⟨h2.1.trans h1.1, h2.2.trans h1.2⟩

theorem jogOp_frame (st : RState) (n t g : ℕ) :
    (jogOp st n t g).currentColumn = st.currentColumn ∧
    (jogOp st n t g).channelLength = st.channelLength := by
  unfold jogOp
  dsimp only
  split <;> exact ⟨rfl, rfl⟩

theorem connectPins_frame (st : RState) :
    (connectPins st).currentColumn = st.currentColumn ∧
    (connectPins st).channelLength = st.channelLength := by
  unfold connectPins
  dsimp only
  split
  · exact ⟨rfl, rfl⟩
  · split <;> first
      | exact ⟨rfl, rfl⟩
      | (split <;> first
          | exact ⟨rfl, rfl⟩
          | (split <;> first
              | exact ⟨rfl, rfl⟩
              | (split <;> exact ⟨rfl, rfl⟩)))

theorem collapseSplitNets_frame (st : RState) :
    (collapseSplitNets st).currentColumn = st.currentColumn ∧
    (collapseSplitNets st).channelLength = st.channelLength := by
  unfold collapseSplitNets
  dsimp only
  split
  · exact ⟨rfl, rfl⟩
  split
  · exact ⟨rfl, rfl⟩
  split
  · exact ⟨rfl, rfl⟩
  split
  · exact ⟨rfl, rfl⟩
  · apply foldl_frame
    intro s x
    have h := foldl_frame
      (fun s2 j =>
        let s3 := addVerticalWire s2 x.1 j.1 j.2
        { s3 with Y := updY s3.Y x.1 ((s3.Y x.1).erase j.1) })
      (fun s2 j => ⟨rfl, rfl⟩) x.2 s
    exact h

theorem jogOp_cc (s : RState) (n t g : ℕ) :
    (jogOp s n t g).currentColumn = s.currentColumn :=
  (jogOp_frame s n t g).1

theorem jogOp_len (s : RState) (n t g : ℕ) :
    (jogOp s n t g).channelLength = s.channelLength :=
  (jogOp_frame s n t g).2

theorem compressSplitNet_frame (st : RState) (net : ℕ) :
    (compressSplitNet st net).currentColumn = st.currentColumn ∧
    (compressSplitNet st net).channelLength = st.channelLength := by
  unfold compressSplitNet
  dsimp only
  split
  · split <;> split <;> simp [jogOp_cc, jogOp_len]
  · exact ⟨rfl, rfl⟩

theorem pushUnsplitNets_frame (st : RState) :
    (pushUnsplitNets st).currentColumn = st.currentColumn ∧
    (pushUnsplitNets st).channelLength = st.channelLength := by
  unfold pushUnsplitNets
  dsimp only
  apply foldl_frame
  intro s q
  exact jogOp_frame s q.2.1 q.2.2.1 q.2.2.2

theorem widenChannel_frame (st : RState) (side : Option Side) :
    (widenChannel st side).currentColumn = st.currentColumn ∧
    (widenChannel st side).channelLength = st.channelLength := ⟨rfl, rfl⟩

theorem extendNets_facts (st : RState) :
    (extendNets st).currentColumn = st.currentColumn ∧
    (extendNets st).channelLength = max st.channelLength (st.currentColumn + 1) := by
  have hstep : ∀ (s : RState) (n : ℕ),
      ((fun (s : RState) (n : ℕ) =>
        if (s.Y n).length = 1 ∧ nextPin s n none = none then
          { s with Y := updY s.Y n [] }
        else
          (s.Y n).foldl
            (fun s2 track =>
              { s2 with
                G := addEdgeL s2.G (s2.currentColumn, track)
                       (s2.currentColumn + 1, track) n })
            s) s n).currentColumn = s.currentColumn ∧
      ((fun (s : RState) (n : ℕ) =>
        if (s.Y n).length = 1 ∧ nextPin s n none = none then
          { s with Y := updY s.Y n [] }
        else
          (s.Y n).foldl
            (fun s2 track =>
              { s2 with
                G := addEdgeL s2.G (s2.currentColumn, track)
                       (s2.currentColumn + 1, track) n })
            s) s n).channelLength = s.channelLength := by
    intro s n
    dsimp only
    split
    · exact ⟨rfl, rfl⟩
    · exact foldl_frame
        (fun s2 track =>
          { s2 with
            G := addEdgeL s2.G (s2.currentColumn, track)
                   (s2.currentColumn + 1, track) n })
        (fun s2 track => ⟨rfl, rfl⟩) (s.Y n) s
  have h := foldl_frame _ hstep st.nets st
  unfold extendNets
  dsimp only
  refine ⟨h.1, ?_⟩
  rw [h.1, h.2]

theorem columnBody_facts (st : RState) :
    (columnBody st).currentColumn = st.currentColumn + 1 ∧
    st.currentColumn + 1 ≤ (columnBody st).channelLength := by
  unfold columnBody
  dsimp only
  have f1 : ∀ s : RState, ((if st.currentColumn < st.channelLength then connectPins st
      else st).currentColumn = st.currentColumn ∧
      (if st.currentColumn < st.channelLength then connectPins st
      else st).channelLength = st.channelLength) := by
    intro _
    split
    · exact connectPins_frame st
    · exact ⟨rfl, rfl⟩
  have h1 := f1 st
  have h2 := collapseSplitNets_frame
    (if st.currentColumn < st.channelLength then connectPins st else st)
  set s2 := collapseSplitNets
    (if st.currentColumn < st.channelLength then connectPins st else st) with hs2
  have h3 := foldl_frame compressSplitNet
    (fun s n => compressSplitNet_frame s n) (splitNetsList s2) s2
  set s3 := (splitNetsList s2).foldl compressSplitNet s2 with hs3
  have h4 := pushUnsplitNets_frame s3
  set s4 := pushUnsplitNets s3 with hs4
  have f5 : ∀ s : RState,
      (connectPins (widenChannel s (some Side.T))).currentColumn = s.currentColumn ∧
      (connectPins (widenChannel s (some Side.T))).channelLength = s.channelLength := by
    intro s
    have ha := connectPins_frame (widenChannel s (some Side.T))
    have hb := widenChannel_frame s (some Side.T)
    exact ⟨ha.1.trans hb.1, ha.2.trans hb.2⟩
  have f6 : ∀ s : RState,
      (connectPins (widenChannel s (some Side.B))).currentColumn = s.currentColumn ∧
      (connectPins (widenChannel s (some Side.B))).channelLength = s.channelLength := by
    intro s
    have ha := connectPins_frame (widenChannel s (some Side.B))
    have hb := widenChannel_frame s (some Side.B)
    exact ⟨ha.1.trans hb.1, ha.2.trans hb.2⟩
  have h5 : ((if (pinsProp s4).1.isSome then connectPins (widenChannel s4 (some Side.T))
      else s4).currentColumn = s4.currentColumn ∧
      (if (pinsProp s4).1.isSome then connectPins (widenChannel s4 (some Side.T))
      else s4).channelLength = s4.channelLength) := by
    split
    · exact f5 s4
    · exact ⟨rfl, rfl⟩
  set s5 := if (pinsProp s4).1.isSome then connectPins (widenChannel s4 (some Side.T))
    else s4 with hs5
  have h6 : ((if (pinsProp s4).2.isSome then connectPins (widenChannel s5 (some Side.B))
      else s5).currentColumn = s5.currentColumn ∧
      (if (pinsProp s4).2.isSome then connectPins (widenChannel s5 (some Side.B))
      else s5).channelLength = s5.channelLength) := by
    split
    · exact f6 s5
    · exact ⟨rfl, rfl⟩
  set s6 := if (pinsProp s4).2.isSome then connectPins (widenChannel s5 (some Side.B))
    else s5 with hs6
  have h7 := extendNets_facts s6
  have hcc : s6.currentColumn = st.currentColumn := by
    rw [h6.1, h5.1, h4.1, h3.1, h2.1, h1.1]
  constructor
  · show (extendNets s6).currentColumn + 1 = st.currentColumn + 1
    rw [h7.1, hcc]
  · show st.currentColumn + 1 ≤ (extendNets s6).channelLength
    rw [h7.2, hcc]
    omega

end RF83

namespace RF83

theorem routeLoop_no_outOfFuel (M : ℕ) :
    ∀ (fuel : ℕ) (st : RState), M + 1 ≤ 2 * st.currentColumn + 2 * fuel →
      1 ≤ fuel → ∀ s, routeLoop M fuel st ≠ .outOfFuel s := by
  intro fuel
  induction fuel with
  | zero =>
    intro st h1 h2
    omega
  | succ f ih =>
    intro st h1 _ s
    show (match finishedE st with
      | .error e => LoopRes.err e st
      | .ok true => LoopRes.done st
      | .ok false =>
        let st2 := columnBody st
        if M ≤ 2 * st2.channelLength then LoopRes.done st2
        else routeLoop M f st2) ≠ LoopRes.outOfFuel s
    cases hfin : finishedE st with
    | error e => simp
    | ok b =>
      cases b with
      | true => simp
      | false =>
        dsimp only
        have hcb := columnBody_facts st
        by_cases hbrk : M ≤ 2 * (columnBody st).channelLength
        · rw [if_pos hbrk]
          simp
        · rw [if_neg hbrk]
          rcases Nat.eq_zero_or_pos f with rfl | hf
          · exfalso
            omega
          · exact ih (columnBody st) (by omega) hf s

theorem routeLoop_done_char (M : ℕ) :
    ∀ (fuel : ℕ) (st s : RState), routeLoop M fuel st = .done s →
      finishedE s = .ok true ∨ M ≤ 2 * s.channelLength := by
  intro fuel
  induction fuel with
  | zero =>
    intro st s h
    exact absurd h (by simp [routeLoop])
  | succ f ih =>
    intro st s h
    rw [show routeLoop M (f + 1) st = (match finishedE st with
      | .error e => LoopRes.err e st
      | .ok true => LoopRes.done st
      | .ok false =>
        let st2 := columnBody st
        if M ≤ 2 * st2.channelLength then LoopRes.done st2
        else routeLoop M f st2) from rfl] at h
    cases hfin : finishedE st with
    | error e =>
      rw [hfin] at h
      exact absurd h (by simp)
    | ok b =>
      cases b with
      | true =>
        rw [hfin] at h
        simp at h
        subst h
        exact Or.inl hfin
      | false =>
        rw [hfin] at h
        dsimp only at h
        by_cases hbrk : M ≤ 2 * (columnBody st).channelLength
        · rw [if_pos hbrk] at h
          simp at h
          subst h
          exact Or.inr hbrk
        · rw [if_neg hbrk] at h
          exact ih (columnBody st) s h

/-- C10, amended.  The column loop of `route` always performs finitely
many iterations: with the fuel `route` supplies, the out-of-fuel marker
is unreachable for every starting state, and when the loop returns
normally it does so either because `finished` held (which requires the
current column to have passed the last input column — merely having no
pins left after the current column does not end the loop — and no net to
own a track) or because the channel length reached the 1.5× failsafe
multiple of its value at entry. -/
theorem c10_route_terminates :
    (∀ (st : RState) (s : RState), route st ≠ .outOfFuel s) ∧
    (∀ (st : RState) (s : RState), route st = .done s →
      finishedE s = .ok true ∨ 3 * st.channelLength ≤ 2 * s.channelLength) := by
  constructor
  · intro st s
    exact routeLoop_no_outOfFuel (3 * st.channelLength) (2 * st.channelLength + 1)
      st (by omega) (by omega) s
  · intro st s h
    exact routeLoop_done_char (3 * st.channelLength) (2 * st.channelLength + 1)
      st s h

/-- C10, counterexample.  The claim says the loop "ends when no pins
remain after the current column and no net owns any track".  On
`top=bottom=[1,0,0]` at the initial state both parts of that condition
hold (`specLoopExitCondB`), yet `finished` is false and the loop runs
on: the code's exit test requires the current column to pass the last
column index, pins or not. -/
theorem c10_counterexample :
    specLoopExitCondB trailingZerosInput = true ∧
    finishedE trailingZerosInput = .ok false := by
  exact ⟨by decide, rfl⟩

/-- The single-column input `top=bottom=[1]`: `finished` holds
immediately. -/
def oneColumnInput : RState :=
  mkRouter [1] [1] none 1 10

/-- Witness for C10: on `oneColumnInput` the loop exits at once, and the
exit characterisation instantiates with the `finished` disjunct. -/
theorem c10_witness :
    finishedE oneColumnInput = .ok true ∨
      3 * oneColumnInput.channelLength ≤ 2 * oneColumnInput.channelLength :=
  c10_route_terminates.2 oneColumnInput oneColumnInput rfl

end RF83
